import Mathlib

/-!
Shallow embedding of the dailydraw submission-cleanup cron job.

Source of the embedding: `src/cleanup.ts` (the TypeScript entrypoint) for the
deletion core, and `dist/cleanup.js` (the compiled revision) for the
legacy-parameter retry of the `user_is_premium` RPC, which exists only there.

Modelling decisions, recorded once here:

* Database ids, object keys and dates are the strings the TypeScript code
  manipulates.  SQL / JS string comparison (`.lt`, `.gt`, `<`) is modelled as
  lexicographic order on `String.data` (`List Char`), which is a linear order;
  the claims only depend on it being one.  We compare `.data` rather than use
  `String.lt` directly so that concrete instances reduce inside the kernel.
* JS truthiness of a string (`if (s)`, `Boolean(s)`, `filter(Boolean)`) is
  `s ≠ ""`: the only falsy string is the empty string.
* The external collaborators are oracles passed in a `World`:
  - `db` is the joined `submissions × daily_prompts` relation the Supabase
    query reads (inner join: a submission with no prompt is simply absent);
    it is held fixed for a run, which the cursor makes equivalent to the
    real shrinking table for every claim below.
  - `rpc` is the `user_is_premium` remote procedure: for one user id it
    yields a boolean, a non-boolean `data`, or an error.
  - `r2FailMsg` gives the per-key failure entry of the R2 batch-delete
    response (`none` = that key deleted fine).  The command uses
    `Quiet: true`, so the success list `Deleted` is absent and the
    function's return value falls back to `uniqueKeys.length`.
  - `dbDeleteErr` gives the error of the relational `delete().in('id', ids)`
    call, if any.
* `await Promise.all(chunk.map(fetchPremiumStatus))` over a chunk of
  pairwise-distinct, uncached user ids is modelled sequentially: no two of
  those concurrent lookups read or write the same cache key, so the chunked
  parallel execution and the sequential one produce the same cache, the same
  set of issued calls and the same first error.
* Traces: the run state records, purely as observations, the pages fetched,
  every key list handed to the R2 `DeleteObjectsCommand`, every id list
  handed to the relational delete, and every issued RPC user id.  The
  counters, cursor and cache are exactly the mutable variables of `main`.
-/

namespace Cleanup

/-- JS truthiness of a string: every string except `""` is truthy. -/
def truthy (s : String) : Bool := decide ¬(s = "")

/-- One row of the joined read
`select('id,user_id,original_key,daily_prompts!inner(prompt_date)')`. -/
structure SubmissionRow where
  id : String
  user_id : String
  original_key : Option String
  prompt_date : String
deriving DecidableEq

/-- `const BATCH_SIZE = 1000`. -/
def BATCH_SIZE : Nat := 1000

/-- `const PREMIUM_RPC_CHUNK_SIZE = 25` (bounds in-flight RPCs; see the module
comment for why the chunked `Promise.all` is modelled sequentially). -/
def PREMIUM_RPC_CHUNK_SIZE : Nat := 25

/-- The ordering `order('id', { ascending: true })` sorts by. -/
def leById (a b : SubmissionRow) : Prop := a.id.data ≤ b.id.data

instance : DecidableRel leById := fun a b => inferInstanceAs (Decidable (a.id.data ≤ b.id.data))

instance : IsTotal SubmissionRow leById := ⟨fun a b => le_total a.id.data b.id.data⟩

instance : IsTrans SubmissionRow leById := ⟨fun _ _ _ h h' => le_trans h h'⟩

/-- `fetchBatch(cutoffDate, lastSeenId)`: filtered (`prompt_date < cutoff`,
and `id > lastSeenId` when `if (lastSeenId)` is truthy), ordered ascending by
id, limited to `BATCH_SIZE` rows. -/
def fetchBatch (db : List SubmissionRow) (cutoffDate : String) (lastSeenId : Option String) :
    List SubmissionRow :=
  let filtered := db.filter (fun r => decide (r.prompt_date.data < cutoffDate.data))
  let cursored :=
    match lastSeenId with
    | some cursor =>
      if truthy cursor then filtered.filter (fun r => decide (cursor.data < r.id.data))
      else filtered
    | none => filtered
  (List.insertionSort leById cursored).take BATCH_SIZE

/-- Lookup in the `premiumStatusCache` (`Map.get`): first entry with the key. -/
def cacheGet : List (String × Bool) → String → Option Bool
  | [], _ => none
  | (k, v) :: rest, userId => if k = userId then some v else cacheGet rest userId

/-- `premiumStatusCache.has(userId)`. -/
def cacheHas (cache : List (String × Bool)) (userId : String) : Bool :=
  (cacheGet cache userId).isSome

/-- Outcome of one `supabase.rpc('user_is_premium', ...)` call: a boolean
`data`, a non-boolean `data`, or an `error`. -/
inductive RpcOutcome where
  | ok (b : Bool)
  | nonBool
  | err (msg : String)
deriving DecidableEq

/-- The `premiumStatusCache` plus, as an observation, the user ids for which
an underlying RPC was actually issued, in order. -/
structure PremiumState where
  cache : List (String × Bool)
  rpcCalls : List String
deriving DecidableEq

def initPremium : PremiumState := ⟨[], []⟩

/-- `fetchPremiumStatus(userId)`: serve from the cache, else issue the RPC;
an RPC error or a non-boolean `data` throws (the thrown message is the
`Except.error`), a boolean is cached and returned. -/
def fetchPremiumStatus (rpc : String → RpcOutcome) (st : PremiumState) (userId : String) :
    PremiumState × Except String Bool :=
  match cacheGet st.cache userId with
  | some b => (st, Except.ok b)
  | none =>
    match rpc userId with
    | RpcOutcome.err m =>
      ({ st with rpcCalls := st.rpcCalls ++ [userId] },
        Except.error ("user_is_premium RPC failed for user " ++ userId ++ ": " ++ m))
    | RpcOutcome.nonBool =>
      ({ st with rpcCalls := st.rpcCalls ++ [userId] },
        Except.error ("user_is_premium RPC returned non-boolean for user " ++ userId))
    | RpcOutcome.ok b =>
      (⟨st.cache ++ [(userId, b)], st.rpcCalls ++ [userId]⟩, Except.ok b)

/-- Sequential processing of the not-yet-cached ids (the bodies of the
`Promise.all` chunks, see the module comment): stop at the first thrown
error, as the rejected promise aborts `main`. -/
def ensureGo (rpc : String → RpcOutcome) : List String → PremiumState → PremiumState × Option String
  | [], st => (st, none)
  | userId :: rest, st =>
    match fetchPremiumStatus rpc st userId with
    | (st', Except.ok _) => ensureGo rpc rest st'
    | (st', Except.error m) => (st', some m)

/-- `ensurePremiumStatuses(userIds)`: filter out the ids already cached, then
resolve the missing ones. -/
def ensurePremiumStatuses (rpc : String → RpcOutcome) (st : PremiumState)
    (userIds : List String) : PremiumState × Option String :=
  ensureGo rpc (userIds.filter (fun userId => !(cacheHas st.cache userId))) st

/-- `Array.from(new Set(xs))`: deduplicate keeping the first occurrence. -/
def jsSetDedupAux {α : Type} [DecidableEq α] (seen : List α) : List α → List α
  | [] => []
  | x :: xs => if x ∈ seen then jsSetDedupAux seen xs else x :: jsSetDedupAux (x :: seen) xs

def jsSetDedup {α : Type} [DecidableEq α] (l : List α) : List α := jsSetDedupAux [] l

/-- `filterNonPremium(rows)`: resolve the page's deduplicated owner ids, then
keep exactly the rows whose cached status is literally `false`
(`premiumStatusCache.get(row.user_id) === false`). -/
def filterNonPremium (rpc : String → RpcOutcome) (st : PremiumState)
    (rows : List SubmissionRow) : PremiumState × Except String (List SubmissionRow) :=
  let uniqueUserIds := jsSetDedup (rows.map (fun r => r.user_id))
  match ensurePremiumStatuses rpc st uniqueUserIds with
  | (st', some m) => (st', Except.error m)
  | (st', none) =>
    (st', Except.ok (rows.filter (fun row => cacheGet st'.cache row.user_id == some false)))

/-- `removable.map(row => row.original_key).filter(Boolean)`: the non-null,
non-empty (truthy) object keys, duplicates kept. -/
def rowKeys (rows : List SubmissionRow) : List String :=
  (rows.map (fun r => r.original_key)).filterMap (fun k =>
    match k with
    | some s => if truthy s then some s else none
    | none => none)

/-- `deleteFilesFromR2(keys)`: no-op on an empty key list; otherwise send one
`DeleteObjectsCommand` with the deduplicated keys and throw if the response
lists any per-key error.  The second component records the key list of the
command actually sent (sent before the errors are inspected). -/
def deleteFilesFromR2 (r2FailMsg : String → Option String) (keys : List String) :
    Except String Nat × List (List String) :=
  if keys.length = 0 then (Except.ok 0, [])
  else
    let uniqueKeys := jsSetDedup keys
    let errors := uniqueKeys.filterMap (fun k =>
      (r2FailMsg k).map (fun m => k ++ ": " ++ m))
    if 0 < errors.length then
      (Except.error ("Failed to delete some objects from R2: " ++
        String.intercalate "; " errors), [uniqueKeys])
    else
      (Except.ok uniqueKeys.length, [uniqueKeys])

/-- `deleteSubmissions(ids)`: no-op on an empty id list; otherwise one
`delete().in('id', ids)` call, throwing on error.  The second component
records the id list of the call actually made. -/
def deleteSubmissions (dbDeleteErr : List String → Option String) (ids : List String) :
    Except String Nat × List (List String) :=
  if ids.length = 0 then (Except.ok 0, [])
  else
    match dbDeleteErr ids with
    | some m =>
      (Except.error ("Failed to delete submissions " ++ String.intercalate ", " ids ++
        ": " ++ m), [ids])
    | none => (Except.ok ids.length, [ids])

/-- The external collaborators of one run (see the module comment). -/
structure World where
  db : List SubmissionRow
  rpc : String → RpcOutcome
  r2FailMsg : String → Option String
  dbDeleteErr : List String → Option String

/-- The mutable state of `main` plus the observation traces. -/
structure RunState where
  premium : PremiumState
  totalRowsDeleted : Nat
  totalFilesDeleted : Nat
  batchNumber : Nat
  lastSeenId : Option String
  pages : List (List SubmissionRow)
  r2Sends : List (List String)
  dbDeletes : List (List String)
deriving DecidableEq

def initState : RunState :=
  { premium := initPremium
    totalRowsDeleted := 0
    totalFilesDeleted := 0
    batchNumber := 1
    lastSeenId := none
    pages := []
    r2Sends := []
    dbDeletes := []}

/-- The body of `main`'s `while` loop for one non-empty batch: advance the
cursor (`batch[batch.length - 1]?.id ?? lastSeenId`), filter out premium
owners, `continue` if nothing is deletable, else delete from R2 and only then
delete the rows and bump the counters.  `some msg` is a thrown error, which
aborts the run. -/
def stepPage (w : World) (st0 : RunState) (batch : List SubmissionRow) :
    RunState × Option String :=
  let st := { st0 with
    lastSeenId :=
      match batch.getLast? with
      | some row => some row.id
      | none => st0.lastSeenId
    pages := st0.pages ++ [batch] }
  match filterNonPremium w.rpc st.premium batch with
  | (pst, Except.error msg) => ({ st with premium := pst }, some msg)
  | (pst, Except.ok removable) =>
    let st1 := { st with premium := pst }
    if removable.length = 0 then
      ({ st1 with batchNumber := st1.batchNumber + 1 }, none)
    else
      let keys := rowKeys removable
      match deleteFilesFromR2 w.r2FailMsg keys with
      | (Except.error msg, sends) =>
        ({ st1 with r2Sends := st1.r2Sends ++ sends }, some msg)
      | (Except.ok _, sends) =>
        let st2 := { st1 with r2Sends := st1.r2Sends ++ sends }
        match deleteSubmissions w.dbDeleteErr (removable.map (fun r => r.id)) with
        | (Except.error msg, dels) =>
          ({ st2 with dbDeletes := st2.dbDeletes ++ dels }, some msg)
        | (Except.ok _, dels) =>
          ({ st2 with
              dbDeletes := st2.dbDeletes ++ dels
              totalRowsDeleted := st2.totalRowsDeleted + removable.length
              totalFilesDeleted := st2.totalFilesDeleted + keys.length
              batchNumber := st2.batchNumber + 1 }, none)

/-- How a run ends: the TS loop runs until an empty page (`done`) or a thrown
error (`fatal`); the fuel only bounds the number of modelled iterations. -/
inductive RunStatus where
  | done
  | fatal (msg : String)
  | outOfFuel
deriving DecidableEq

/-- `main`'s `while (true)` loop: fetch a page, stop on an empty one,
otherwise process it and iterate. -/
def runLoop (w : World) (cutoffDate : String) : Nat → RunState → RunState × RunStatus
  | 0, st => (st, RunStatus.outOfFuel)
  | Nat.succ fuel, st =>
    let batch := fetchBatch w.db cutoffDate st.lastSeenId
    if batch.length = 0 then (st, RunStatus.done)
    else
      match stepPage w st batch with
      | (st', some msg) => (st', RunStatus.fatal msg)
      | (st', none) => runLoop w cutoffDate fuel st'

/-- Replace an empty-string `original_key` by an absent one (used to state
that the code treats the two identically). -/
def eraseEmptyKey (r : SubmissionRow) : SubmissionRow :=
  if r.original_key = some "" then { r with original_key := none } else r

/-- Every row of page `p` has a strictly smaller id than every row of `q`. -/
def pagesLt (p q : List SubmissionRow) : Prop :=
  ∀ a ∈ p, ∀ b ∈ q, a.id.data < b.id.data

/-- The id of the last row of a page (`""` for an empty page; the run only
records non-empty pages). -/
def pageLastId (p : List SubmissionRow) : String :=
  match p.getLast? with
  | some r => r.id
  | none => ""

/-- Loop invariant of `main`'s pagination: recorded pages are strictly
ordered (every id of an earlier page below every id of a later one), pages
are non-empty, the cursor is exactly the last recorded page's last row id
(`none` before the first page), and every recorded id is bounded by the
cursor, which is never the falsy empty string. -/
def runInv (st : RunState) : Prop :=
  List.Pairwise pagesLt st.pages ∧
  (∀ p ∈ st.pages, p ≠ []) ∧
  (∀ p, st.pages.getLast? = some p →
    ∃ r, p.getLast? = some r ∧ st.lastSeenId = some r.id) ∧
  (st.pages = [] → st.lastSeenId = none) ∧
  (∀ c, st.lastSeenId = some c → c ≠ "" ∧ ∀ p ∈ st.pages, ∀ a ∈ p, a.id.data ≤ c.data)

end Cleanup

namespace Cleanup

/-! Definitions embedded from `dist/cleanup.js` only: the legacy-parameter
retry of the `user_is_premium` RPC (claim C9). -/

/-- Substring test on character lists: does the second list start the first? -/
def charStartsWith : List Char → List Char → Bool
  | _, [] => true
  | [], _ :: _ => false
  | a :: as, b :: bs => a = b && charStartsWith as bs

/-- Substring test on character lists: does `needle` occur in `hay`? -/
def charContains : List Char → List Char → Bool
  | [], needle => needle.isEmpty
  | a :: rest, needle => charStartsWith (a :: rest) needle || charContains rest needle

/-- `haystack.includes(needle)` (after lowercasing, the messages involved are
ASCII, so `Char.toLower` matches JS `toLowerCase`). -/
def strContains (haystack needle : String) : Bool :=
  charContains haystack.data needle.data

/-- `s.toLowerCase()` over the character data (ASCII folding). -/
def strToLower (s : String) : String := ⟨s.data.map Char.toLower⟩

/-- The two argument names the RPC is attempted with: the canonical
`user_id` and the legacy `uid`. -/
inductive PremiumArg where
  | user_id
  | uid
deriving DecidableEq

/-- The raw result of one `supabase.rpc` call in the `dist` revision:
a boolean `data` with null error, a non-boolean `data` with null error, or an
`error` object whose `message` property may itself be missing. -/
inductive RpcReply where
  | ok (b : Bool)
  | nonBool
  | fail (message : Option String)
deriving DecidableEq

/-- The `error` property of a reply: `none` when the call succeeded. -/
def replyError : RpcReply → Option (Option String)
  | RpcReply.fail m => some m
  | _ => none

/-- `isMissingUserIdArgument(error)`: false when `error?.message` is falsy
(no error, no message, or the empty message); otherwise lowercase the message
and match it against the canonical missing-function text, or against both the
function name and the identifier. -/
def isMissingUserIdArgument (error : Option (Option String)) : Bool :=
  match error with
  | none => false
  | some none => false
  | some (some msg) =>
    if msg = "" then false
    else
      let message := strToLower msg
      strContains message "could not find the function public.user_is_premium(user_id)" ||
        (strContains message "user_is_premium" && strContains message "user_id")

/-- The observable outcome of `invokeUserIsPremium`: the reply handed back,
the new value of the run-global `warnedAboutLegacyPremiumFn` flag, how many
warnings this invocation printed, and which argument names were tried, in
order. -/
structure InvokeTrace where
  reply : RpcReply
  warned : Bool
  warnings : Nat
  calls : List PremiumArg
deriving DecidableEq

/-- `invokeUserIsPremium(userId)`: try the canonical argument name; if and
only if the failure message matches `isMissingUserIdArgument`, warn once per
run and retry exactly once with the legacy name, returning that second reply
unchecked. -/
def invokeUserIsPremium (rpc : PremiumArg → String → RpcReply) (warned : Bool)
    (userId : String) : InvokeTrace :=
  let firstAttempt := rpc PremiumArg.user_id userId
  if !(isMissingUserIdArgument (replyError firstAttempt)) then
    { reply := firstAttempt, warned := warned, warnings := 0, calls := [PremiumArg.user_id] }
  else
    { reply := rpc PremiumArg.uid userId
      warned := true
      warnings := if warned then 0 else 1
      calls := [PremiumArg.user_id, PremiumArg.uid] }

/-- Total number of warnings printed by a sequence of invocations threading
the `warnedAboutLegacyPremiumFn` flag. -/
def runWarnings (rpc : PremiumArg → String → RpcReply) : List String → Bool → Nat
  | [], _ => 0
  | userId :: rest, warned =>
    (invokeUserIsPremium rpc warned userId).warnings +
      runWarnings rpc rest (invokeUserIsPremium rpc warned userId).warned

end Cleanup

namespace Cleanup

/-! ### Predicates used by the theorems, and concrete instances for the
witnesses and counterexamples -/

/-- An RPC outcome `fetchPremiumStatus` throws on: a non-boolean `data` or an
error. -/
def fatalRpc (o : RpcOutcome) : Prop :=
  o = RpcOutcome.nonBool ∨ ∃ m, o = RpcOutcome.err m

/-- Resolver invariant away from a fatal stop: the issued RPC user ids are
pairwise distinct and are exactly the cached ids. -/
def premStrong (pst : PremiumState) : Prop :=
  pst.rpcCalls.Nodup ∧ ∀ uid, uid ∈ pst.rpcCalls ↔ cacheHas pst.cache uid = true

/-- Resolver invariant that also survives the fatal stop: the issued RPC user
ids are pairwise distinct and every cached id was issued. -/
def premWeak (pst : PremiumState) : Prop :=
  pst.rpcCalls.Nodup ∧ ∀ uid, cacheHas pst.cache uid = true → uid ∈ pst.rpcCalls

/-- C1 witness world: one expired row owned by a non-premium user, whose
object key the R2 batch delete rejects. -/
def rowC1 : SubmissionRow := ⟨"s1", "u1", some "k1", "2000-01-01"⟩

def wC1 : World :=
  { db := [rowC1]
    rpc := fun _ => RpcOutcome.ok false
    r2FailMsg := fun k => if k = "k1" then some "AccessDenied" else none
    dbDeleteErr := fun _ => none }

/-- C2 counterexample page: an exempt row and a non-exempt row sharing one
object key. -/
def rowE : SubmissionRow := ⟨"e1", "pu", some "shared", "2024-01-01"⟩

def rowN : SubmissionRow := ⟨"n1", "nu", some "shared", "2024-01-01"⟩

def wC2 : World :=
  { db := [rowE, rowN]
    rpc := fun u => if u = "pu" then RpcOutcome.ok true else RpcOutcome.ok false
    r2FailMsg := fun _ => none
    dbDeleteErr := fun _ => none }

/-- C3 witness world: one expired row of one non-premium owner. -/
def rowC3 : SubmissionRow := ⟨"s3", "u3", some "k3", "2000-01-01"⟩

def wC3 : World :=
  { db := [rowC3]
    rpc := fun _ => RpcOutcome.ok false
    r2FailMsg := fun _ => none
    dbDeleteErr := fun _ => none }

/-- C4 witness world: the single owner's entitlement RPC returns a
non-boolean `data`. -/
def rowC4 : SubmissionRow := ⟨"s4", "u4", some "k4", "2000-01-01"⟩

def wC4 : World :=
  { db := [rowC4]
    rpc := fun _ => RpcOutcome.nonBool
    r2FailMsg := fun _ => none
    dbDeleteErr := fun _ => none }

/-- C5 counterexample world: two expired non-premium rows sharing one object
key (the spec's Scenario B). -/
def rowA : SubmissionRow := ⟨"a", "u", some "k", "2000-01-01"⟩

def rowB : SubmissionRow := ⟨"b", "u", some "k", "2000-01-02"⟩

def wC5 : World :=
  { db := [rowB, rowA]
    rpc := fun _ => RpcOutcome.ok false
    r2FailMsg := fun _ => none
    dbDeleteErr := fun _ => none }

/-- C6 counterexample row: an eligible submission whose id is the empty
string (the one falsy string). -/
def row6 : SubmissionRow := ⟨"", "u6", none, "2000-01-01"⟩

/-- C7 counterexample world: the only eligible row has the empty-string id,
and its owner is premium (so pages are all-exempt no-ops). -/
def row7 : SubmissionRow := ⟨"", "u7", none, "2000-01-01"⟩

def wC7 : World :=
  { db := [row7]
    rpc := fun _ => RpcOutcome.ok true
    r2FailMsg := fun _ => none
    dbDeleteErr := fun _ => none }

/-- C7 witness world (for the amended claim): two eligible rows with truthy
ids across two single-row pages is impossible with BATCH_SIZE = 1000, so use
two rows in one page plus an empty follow-up fetch. -/
def rowA7 : SubmissionRow := ⟨"a7", "u7a", none, "2000-01-01"⟩

def rowB7 : SubmissionRow := ⟨"b7", "u7b", some "k7", "2000-01-01"⟩

def wC7b : World :=
  { db := [rowB7, rowA7]
    rpc := fun u => if u = "u7a" then RpcOutcome.ok true else RpcOutcome.ok false
    r2FailMsg := fun _ => none
    dbDeleteErr := fun _ => none }

/-- C8 witness world: every owner of the page is premium. -/
def rowC8 : SubmissionRow := ⟨"s8", "u8", some "k8", "2000-01-01"⟩

def wC8 : World :=
  { db := [rowC8]
    rpc := fun _ => RpcOutcome.ok true
    r2FailMsg := fun _ => none
    dbDeleteErr := fun _ => none }

/-- C9 witness RPC: the canonical argument name fails with the legacy-schema
message, the legacy name succeeds. -/
def rpc9 : PremiumArg → String → RpcReply :=
  fun arg _ =>
    match arg with
    | PremiumArg.user_id =>
      RpcReply.fail (some
        "Could not find the function public.user_is_premium(user_id) in the schema cache")
    | PremiumArg.uid => RpcReply.ok true

/-- C9 witness RPC for the no-retry direction: the canonical call fails with
an unrelated message. -/
def rpc9b : PremiumArg → String → RpcReply :=
  fun _ _ => RpcReply.fail (some "network timeout")

/-- C10 witness world: one non-exempt row with the empty-string key next to
one with a real key. -/
def rowK10 : SubmissionRow := ⟨"s10", "u10", some "", "2000-01-01"⟩

def rowL10 : SubmissionRow := ⟨"t10", "u10", some "k10", "2000-01-01"⟩

def wC10 : World :=
  { db := [rowK10, rowL10]
    rpc := fun _ => RpcOutcome.ok false
    r2FailMsg := fun _ => none
    dbDeleteErr := fun _ => none }

end Cleanup

namespace Cleanup

/-! ### Generic helper lemmas: dedup, cache lookup, key extraction -/

theorem mem_jsSetDedupAux {α : Type} [DecidableEq α] (a : α) :
    ∀ (l seen : List α), a ∈ jsSetDedupAux seen l ↔ a ∈ l ∧ a ∉ seen := by
  intro l
  induction l with
  | nil => intro seen; simp [jsSetDedupAux]
  | cons x xs ih =>
    intro seen
    by_cases hx : x ∈ seen
    · simp only [jsSetDedupAux, if_pos hx, ih, List.mem_cons]
      constructor
      · rintro ⟨h1, h2⟩; exact ⟨Or.inr h1, h2⟩
      · rintro ⟨h1 | h1, h2⟩
        · exact absurd (h1 ▸ hx) h2
        · exact ⟨h1, h2⟩
    · simp only [jsSetDedupAux, if_neg hx, List.mem_cons, ih]
      by_cases hax : a = x
      · subst hax; simp [hx]
      · simp [hax]

theorem mem_jsSetDedup {α : Type} [DecidableEq α] {l : List α} {a : α} :
    a ∈ jsSetDedup l ↔ a ∈ l := by
  simp [jsSetDedup, mem_jsSetDedupAux]

theorem cacheGet_append (c₁ c₂ : List (String × Bool)) (u : String) :
    cacheGet (c₁ ++ c₂) u =
      match cacheGet c₁ u with
      | some b => some b
      | none => cacheGet c₂ u := by
  induction c₁ with
  | nil => simp [cacheGet]
  | cons p rest ih =>
    obtain ⟨k, v⟩ := p
    by_cases hk : k = u
    · simp [cacheGet, hk]
    · simp [cacheGet, hk, ih]

theorem cacheGet_mono {c₁ c₂ : List (String × Bool)} {u : String} {b : Bool}
    (hpre : c₁ <+: c₂) (h : cacheGet c₁ u = some b) : cacheGet c₂ u = some b := by
  obtain ⟨t, rfl⟩ := hpre
  rw [cacheGet_append, h]

theorem cacheHas_append_single (c : List (String × Bool)) (v : String) (b : Bool) (u : String) :
    cacheHas (c ++ [(v, b)]) u = (cacheHas c u || decide (v = u)) := by
  unfold cacheHas
  rw [cacheGet_append]
  cases h : cacheGet c u with
  | some x => simp
  | none =>
    by_cases hv : v = u
    · simp [cacheGet, hv]
    · simp [cacheGet, hv]

theorem mem_rowKeys {rows : List SubmissionRow} {k : String} :
    k ∈ rowKeys rows ↔ (∃ r ∈ rows, r.original_key = some k) ∧ k ≠ "" := by
  unfold rowKeys
  rw [List.filterMap_map]
  constructor
  · intro h
    obtain ⟨r, hr, hk⟩ := List.mem_filterMap.mp h
    simp only [Function.comp] at hk
    cases hko : r.original_key with
    | none => rw [hko] at hk; simp at hk
    | some s =>
      rw [hko] at hk
      by_cases hs : truthy s = true
      · simp only [hs, if_pos] at hk
        obtain rfl := Option.some.inj hk
        refine ⟨⟨r, hr, hko⟩, ?_⟩
        simpa [truthy] using hs
      · simp [hs] at hk
  · rintro ⟨⟨r, hr, hk⟩, hne⟩
    refine List.mem_filterMap.mpr ⟨r, hr, ?_⟩
    simp only [Function.comp, hk]
    simp [truthy, hne]

theorem empty_not_mem_rowKeys (rows : List SubmissionRow) : "" ∉ rowKeys rows := by
  intro h
  exact (mem_rowKeys.mp h).2 rfl

theorem mem_of_getLastSome {α : Type} {l : List α} {x : α} (h : l.getLast? = some x) :
    x ∈ l := by
  have hx : x ∈ l.getLast? := by rw [h]; rfl
  obtain ⟨hne, rfl⟩ := List.mem_getLast?_eq_getLast hx
  exact List.getLast_mem hne

end Cleanup

namespace Cleanup

/-! ### Entitlement-resolver lemmas -/

theorem fps_spec (rpc : String → RpcOutcome) (st : PremiumState) (uid : String) :
    (∃ b, cacheGet st.cache uid = some b ∧ fetchPremiumStatus rpc st uid = (st, Except.ok b)) ∨
    (cacheGet st.cache uid = none ∧ ∃ b, rpc uid = RpcOutcome.ok b ∧
      fetchPremiumStatus rpc st uid =
        (⟨st.cache ++ [(uid, b)], st.rpcCalls ++ [uid]⟩, Except.ok b)) ∨
    (cacheGet st.cache uid = none ∧ ∃ st' m, fetchPremiumStatus rpc st uid = (st', Except.error m) ∧
      st'.cache = st.cache ∧ st'.rpcCalls = st.rpcCalls ++ [uid] ∧ fatalRpc (rpc uid)) := by
  unfold fetchPremiumStatus
  cases hc : cacheGet st.cache uid with
  | some b => exact Or.inl ⟨b, rfl, rfl⟩
  | none =>
    cases hr : rpc uid with
    | ok b => exact Or.inr (Or.inl ⟨rfl, b, rfl, rfl⟩)
    | nonBool =>
      exact Or.inr (Or.inr ⟨rfl, _, _, rfl, rfl, rfl, Or.inl rfl⟩)
    | err m =>
      exact Or.inr (Or.inr ⟨rfl, _, _, rfl, rfl, rfl, Or.inr ⟨m, rfl⟩⟩)

theorem fps_cached (rpc : String → RpcOutcome) {st : PremiumState} {uid : String} {b : Bool}
    (h : cacheGet st.cache uid = some b) : fetchPremiumStatus rpc st uid = (st, Except.ok b) := by
  unfold fetchPremiumStatus
  rw [h]

theorem fps_cache_prefix (rpc : String → RpcOutcome) (st : PremiumState) (uid : String) :
    st.cache <+: (fetchPremiumStatus rpc st uid).1.cache := by
  rcases fps_spec rpc st uid with ⟨b, _, heq⟩ | ⟨_, b, _, heq⟩ | ⟨_, st', m, heq, hc, _⟩
  · rw [heq]
  · rw [heq]; exact List.prefix_append _ _
  · rw [heq]; rw [hc]

theorem fps_ok_cached (rpc : String → RpcOutcome) {st st' : PremiumState} {uid : String}
    {b : Bool} (h : fetchPremiumStatus rpc st uid = (st', Except.ok b)) :
    cacheGet st'.cache uid = some b := by
  unfold fetchPremiumStatus at h
  cases hc : cacheGet st.cache uid with
  | some x =>
    rw [hc] at h
    injection h with h1 h2
    injection h2 with hb
    subst h1; subst hb
    exact hc
  | none =>
    rw [hc] at h
    cases hr : rpc uid with
    | ok x =>
      rw [hr] at h
      injection h with h1 h2
      injection h2 with hb
      subst hb
      rw [← h1]
      rw [cacheGet_append, hc]
      simp [cacheGet]
    | nonBool =>
      rw [hr] at h
      injection h with h1 h2
      simp at h2
    | err m =>
      rw [hr] at h
      injection h with h1 h2
      simp at h2

theorem fps_uncached_other (rpc : String → RpcOutcome) {st : PremiumState} {uid v : String}
    (h : cacheHas st.cache uid = false) (hne : v ≠ uid) :
    cacheHas (fetchPremiumStatus rpc st v).1.cache uid = false := by
  rcases fps_spec rpc st v with ⟨b, _, heq⟩ | ⟨_, b, _, heq⟩ | ⟨_, st', m, heq, hc, _⟩
  · rw [heq]; exact h
  · rw [heq]
    simp only
    rw [cacheHas_append_single, h]
    simp [hne]
  · rw [heq]; rw [cacheHas, hc, ← cacheHas]; exact h

theorem fps_fatal_self (rpc : String → RpcOutcome) {st : PremiumState} {uid : String}
    (h : cacheHas st.cache uid = false) (hf : fatalRpc (rpc uid)) :
    ∃ st' m, fetchPremiumStatus rpc st uid = (st', Except.error m) ∧ st'.cache = st.cache := by
  have hg : cacheGet st.cache uid = none := by
    rw [cacheHas] at h
    exact Option.not_isSome_iff_eq_none.mp (by simp [h])
  unfold fetchPremiumStatus
  rw [hg]
  rcases hf with hnb | ⟨m, herr⟩
  · rw [hnb]; exact ⟨_, _, rfl, rfl⟩
  · rw [herr]; exact ⟨_, _, rfl, rfl⟩

end Cleanup

namespace Cleanup

theorem fps_err_cache (rpc : String → RpcOutcome) {st st' : PremiumState} {uid : String}
    {m : String} (h : fetchPremiumStatus rpc st uid = (st', Except.error m)) :
    st'.cache = st.cache := by
  rcases fps_spec rpc st uid with ⟨b, _, heq⟩ | ⟨_, b, _, heq⟩ | ⟨_, st'', m', heq, hc, _, _⟩ <;>
    rw [heq] at h
  · injection h with h1 h2; simp at h2
  · injection h with h1 h2; simp at h2
  · injection h with h1 h2
    subst h1
    exact hc

theorem ensureGo_cache_prefix (rpc : String → RpcOutcome) :
    ∀ (l : List String) (st : PremiumState), st.cache <+: (ensureGo rpc l st).1.cache := by
  intro l
  induction l with
  | nil => intro st; exact List.prefix_refl _
  | cons v rest ih =>
    intro st
    simp only [ensureGo]
    rcases hf : fetchPremiumStatus rpc st v with ⟨st', res⟩
    have hpre : st.cache <+: st'.cache := by
      have := fps_cache_prefix rpc st v
      rw [hf] at this
      exact this
    cases res with
    | ok b => exact hpre.trans (ih st')
    | error m => exact hpre

theorem ensureGo_ok_covers (rpc : String → RpcOutcome) :
    ∀ (l : List String) (st : PremiumState), (ensureGo rpc l st).2 = none →
      ∀ uid ∈ l, cacheHas (ensureGo rpc l st).1.cache uid = true := by
  intro l
  induction l with
  | nil => intro st _ uid hu; simp at hu
  | cons v rest ih =>
    intro st hnone uid hu
    simp only [ensureGo] at hnone ⊢
    rcases hf : fetchPremiumStatus rpc st v with ⟨st', res⟩
    rw [hf] at hnone
    cases res with
    | ok b =>
      rcases List.mem_cons.mp hu with rfl | hu'
      · have hc : cacheGet st'.cache uid = some b := fps_ok_cached rpc hf
        have hpre := ensureGo_cache_prefix rpc rest st'
        rw [cacheHas, cacheGet_mono hpre hc]
        rfl
      · exact ih st' hnone uid hu'
    | error m => simp at hnone

theorem ensureGo_fatal (rpc : String → RpcOutcome) :
    ∀ (l : List String) (st : PremiumState) (uid : String), uid ∈ l →
      cacheHas st.cache uid = false → fatalRpc (rpc uid) →
      (ensureGo rpc l st).2.isSome = true ∧ cacheHas (ensureGo rpc l st).1.cache uid = false := by
  intro l
  induction l with
  | nil => intro st uid hu; simp at hu
  | cons v rest ih =>
    intro st uid hu hhas hf
    simp only [ensureGo]
    by_cases hv : v = uid
    · subst hv
      obtain ⟨st', m, heq, hcache⟩ := fps_fatal_self rpc hhas hf
      rw [heq]
      refine ⟨rfl, ?_⟩
      rw [cacheHas, hcache, ← cacheHas]
      exact hhas
    · rcases hfv : fetchPremiumStatus rpc st v with ⟨st', res⟩
      have huid : uid ∈ rest := by
        rcases List.mem_cons.mp hu with rfl | h
        · exact absurd rfl hv
        · exact h
      cases res with
      | ok b =>
        have hhas' : cacheHas st'.cache uid = false := by
          have := fps_uncached_other rpc hhas hv
          rw [hfv] at this
          exact this
        exact ih st' uid huid hhas' hf
      | error m =>
        refine ⟨rfl, ?_⟩
        rw [cacheHas, fps_err_cache rpc hfv, ← cacheHas]
        exact hhas

end Cleanup

namespace Cleanup

theorem premStrong_weak {pst : PremiumState} (h : premStrong pst) : premWeak pst :=
  ⟨h.1, fun uid hc => (h.2 uid).mpr hc⟩

theorem initPremium_strong : premStrong initPremium := by
  constructor
  · exact List.nodup_nil
  · intro uid
    simp [initPremium, cacheHas, cacheGet]

theorem fps_strong_ok (rpc : String → RpcOutcome) {st st' : PremiumState} {uid : String}
    {b : Bool} (hs : premStrong st) (h : fetchPremiumStatus rpc st uid = (st', Except.ok b)) :
    premStrong st' := by
  rcases fps_spec rpc st uid with ⟨b', hb, heq⟩ | ⟨hnone, b', hrpc, heq⟩ |
      ⟨hnone, st'', m, heq, _, _, _⟩ <;> rw [heq] at h
  · injection h with h1 h2
    subst h1
    exact hs
  · injection h with h1 h2
    subst h1
    obtain ⟨hnd, hiff⟩ := hs
    have huid : uid ∉ st.rpcCalls := by
      intro hmem
      have := (hiff uid).mp hmem
      rw [cacheHas, hnone] at this
      simp at this
    constructor
    · simp [List.nodup_append, hnd, huid]
    · intro v
      simp only [List.mem_append, List.mem_singleton, cacheHas_append_single, hiff v]
      by_cases hv : uid = v
      · subst hv; simp
      · have hv' : ¬(v = uid) := fun h => hv h.symm
        simp [hv, hv']
  · injection h with h1 h2
    simp at h2

theorem fps_strong_err (rpc : String → RpcOutcome) {st st' : PremiumState} {uid : String}
    {m : String} (hs : premStrong st) (h : fetchPremiumStatus rpc st uid = (st', Except.error m)) :
    premWeak st' := by
  rcases fps_spec rpc st uid with ⟨b', hb, heq⟩ | ⟨hnone, b', hrpc, heq⟩ |
      ⟨hnone, st'', m', heq, hc, hcalls, _⟩ <;> rw [heq] at h
  · injection h with h1 h2; simp at h2
  · injection h with h1 h2; simp at h2
  · injection h with h1 h2
    subst h1
    obtain ⟨hnd, hiff⟩ := hs
    have huid : uid ∉ st.rpcCalls := by
      intro hmem
      have := (hiff uid).mp hmem
      rw [cacheHas, hnone] at this
      simp at this
    constructor
    · rw [hcalls]
      simp [List.nodup_append, hnd, huid]
    · intro v hv
      rw [cacheHas, hc, ← cacheHas] at hv
      rw [hcalls]
      exact List.mem_append_left _ ((hiff v).mpr hv)

theorem ensureGo_weak (rpc : String → RpcOutcome) :
    ∀ (l : List String) (st : PremiumState), premStrong st → premWeak (ensureGo rpc l st).1 := by
  intro l
  induction l with
  | nil => intro st hs; exact premStrong_weak hs
  | cons v rest ih =>
    intro st hs
    simp only [ensureGo]
    rcases hf : fetchPremiumStatus rpc st v with ⟨st', res⟩
    cases res with
    | ok b => exact ih st' (fps_strong_ok rpc hs hf)
    | error m => exact fps_strong_err rpc hs hf

theorem ensureGo_strong_of_ok (rpc : String → RpcOutcome) :
    ∀ (l : List String) (st : PremiumState), premStrong st → (ensureGo rpc l st).2 = none →
      premStrong (ensureGo rpc l st).1 := by
  intro l
  induction l with
  | nil => intro st hs _; exact hs
  | cons v rest ih =>
    intro st hs hnone
    simp only [ensureGo] at hnone ⊢
    rcases hf : fetchPremiumStatus rpc st v with ⟨st', res⟩
    rw [hf] at hnone
    cases res with
    | ok b => exact ih st' (fps_strong_ok rpc hs hf) hnone
    | error m => simp at hnone

end Cleanup

namespace Cleanup

theorem fnp_cases (rpc : String → RpcOutcome) (pst : PremiumState) (rows : List SubmissionRow) :
    (∃ m, ensurePremiumStatuses rpc pst (jsSetDedup (rows.map (fun r => r.user_id))) =
        ((filterNonPremium rpc pst rows).1, some m) ∧
      (filterNonPremium rpc pst rows).2 = Except.error m) ∨
    (ensurePremiumStatuses rpc pst (jsSetDedup (rows.map (fun r => r.user_id))) =
        ((filterNonPremium rpc pst rows).1, none) ∧
      (filterNonPremium rpc pst rows).2 = Except.ok (rows.filter
        (fun row => cacheGet (filterNonPremium rpc pst rows).1.cache row.user_id ==
          some false))) := by
  rcases he : ensurePremiumStatuses rpc pst (jsSetDedup (rows.map (fun r => r.user_id))) with
    ⟨est, eres⟩
  cases eres with
  | some m =>
    refine Or.inl ⟨m, ?_, ?_⟩ <;> simp [filterNonPremium, he]
  | none =>
    refine Or.inr ⟨?_, ?_⟩ <;> simp [filterNonPremium, he]

theorem fnp_ok_rem (rpc : String → RpcOutcome) {pst pst' : PremiumState}
    {rows rem : List SubmissionRow} (h : filterNonPremium rpc pst rows = (pst', Except.ok rem)) :
    rem = rows.filter (fun row => cacheGet pst'.cache row.user_id == some false) := by
  rcases fnp_cases rpc pst rows with ⟨m, _, hsnd⟩ | ⟨_, hsnd⟩ <;> rw [h] at hsnd
  · simp at hsnd
  · exact (Except.ok.inj hsnd) ▸ rfl

theorem fnp_ok_mem_false (rpc : String → RpcOutcome) {pst pst' : PremiumState}
    {rows rem : List SubmissionRow} (h : filterNonPremium rpc pst rows = (pst', Except.ok rem)) :
    ∀ r ∈ rem, cacheGet pst'.cache r.user_id = some false := by
  intro r hr
  rw [fnp_ok_rem rpc h] at hr
  have := List.of_mem_filter hr
  simpa using this

theorem fnp_ok_ensure (rpc : String → RpcOutcome) {pst pst' : PremiumState}
    {rows rem : List SubmissionRow} (h : filterNonPremium rpc pst rows = (pst', Except.ok rem)) :
    ensurePremiumStatuses rpc pst (jsSetDedup (rows.map (fun r => r.user_id))) = (pst', none) := by
  rcases fnp_cases rpc pst rows with ⟨m, _, hsnd⟩ | ⟨hens, hsnd⟩ <;> rw [h] at hsnd
  · simp at hsnd
  · rw [h] at hens; exact hens

theorem fnp_err_ensure (rpc : String → RpcOutcome) {pst pst' : PremiumState}
    {rows : List SubmissionRow} {m : String}
    (h : filterNonPremium rpc pst rows = (pst', Except.error m)) :
    ensurePremiumStatuses rpc pst (jsSetDedup (rows.map (fun r => r.user_id))) =
      (pst', some m) := by
  rcases fnp_cases rpc pst rows with ⟨m', hens, hsnd⟩ | ⟨hens, hsnd⟩ <;> rw [h] at hsnd
  · rw [h] at hens
    obtain rfl := Except.error.inj hsnd
    exact hens
  · simp at hsnd

theorem fnp_ok_strong (rpc : String → RpcOutcome) {pst pst' : PremiumState}
    {rows rem : List SubmissionRow} (hs : premStrong pst)
    (h : filterNonPremium rpc pst rows = (pst', Except.ok rem)) : premStrong pst' := by
  have hens := fnp_ok_ensure rpc h
  unfold ensurePremiumStatuses at hens
  have := ensureGo_strong_of_ok rpc _ pst hs (by rw [hens])
  rw [hens] at this
  exact this

theorem fnp_err_weak (rpc : String → RpcOutcome) {pst pst' : PremiumState}
    {rows : List SubmissionRow} {m : String} (hs : premStrong pst)
    (h : filterNonPremium rpc pst rows = (pst', Except.error m)) : premWeak pst' := by
  have hens := fnp_err_ensure rpc h
  unfold ensurePremiumStatuses at hens
  have hw := ensureGo_weak rpc
    ((jsSetDedup (rows.map (fun r => r.user_id))).filter
      (fun userId => !(cacheHas pst.cache userId))) pst hs
  rw [hens] at hw
  exact hw

theorem fnp_cache_prefix (rpc : String → RpcOutcome) (pst : PremiumState)
    (rows : List SubmissionRow) : pst.cache <+: (filterNonPremium rpc pst rows).1.cache := by
  rcases fnp_cases rpc pst rows with ⟨m, hens, _⟩ | ⟨hens, _⟩ <;>
  · have := ensureGo_cache_prefix rpc
      ((jsSetDedup (rows.map (fun r => r.user_id))).filter
        (fun userId => !(cacheHas pst.cache userId))) pst
    unfold ensurePremiumStatuses at hens
    rw [hens] at this
    exact this

theorem dfr_zero (f : String → Option String) {keys : List String} (h : keys.length = 0) :
    deleteFilesFromR2 f keys = (Except.ok 0, []) := by
  unfold deleteFilesFromR2
  rw [if_pos h]

theorem dfr_pos_sends (f : String → Option String) {keys : List String} (h : keys.length ≠ 0) :
    (deleteFilesFromR2 f keys).2 = [jsSetDedup keys] := by
  unfold deleteFilesFromR2
  rw [if_neg h]
  dsimp only
  split <;> rfl

theorem dfr_fail (f : String → Option String) {keys : List String} {k : String} (hk : k ∈ keys)
    (hf : (f k).isSome = true) : ∃ m, (deleteFilesFromR2 f keys).1 = Except.error m := by
  have hlen : keys.length ≠ 0 := by
    intro h0
    rw [List.length_eq_zero] at h0
    subst h0
    simp at hk
  obtain ⟨m, hm⟩ := Option.isSome_iff_exists.mp hf
  have hmem : (k ++ ": " ++ m) ∈ (jsSetDedup keys).filterMap
      (fun k' => (f k').map (fun m' => k' ++ ": " ++ m')) :=
    List.mem_filterMap.mpr ⟨k, mem_jsSetDedup.mpr hk, by rw [hm]; rfl⟩
  have hpos : 0 < ((jsSetDedup keys).filterMap
      (fun k' => (f k').map (fun m' => k' ++ ": " ++ m'))).length :=
    List.length_pos.mpr (List.ne_nil_of_mem hmem)
  have h1 : (deleteFilesFromR2 f keys).1 =
      Except.error ("Failed to delete some objects from R2: " ++
        String.intercalate "; " ((jsSetDedup keys).filterMap
          (fun k' => (f k').map (fun m' => k' ++ ": " ++ m')))) := by
    unfold deleteFilesFromR2
    rw [if_neg hlen]
    dsimp only
    rw [if_pos hpos]
  exact ⟨_, h1⟩

theorem dfr_clean (f : String → Option String) {keys : List String} (hlen : keys.length ≠ 0)
    (h : ∀ k ∈ keys, f k = none) :
    (deleteFilesFromR2 f keys).1 = Except.ok (jsSetDedup keys).length := by
  have hempty : ((jsSetDedup keys).filterMap
      (fun k' => (f k').map (fun m' => k' ++ ": " ++ m'))) = [] := by
    rw [List.filterMap_eq_nil_iff]
    intro k hk
    rw [h k (mem_jsSetDedup.mp hk)]
    rfl
  unfold deleteFilesFromR2
  rw [if_neg hlen]
  simp only [hempty]
  rfl

theorem ds_pos_calls (g : List String → Option String) {ids : List String}
    (h : ids.length ≠ 0) : (deleteSubmissions g ids).2 = [ids] := by
  unfold deleteSubmissions
  rw [if_neg h]
  cases g ids <;> rfl

theorem ds_pos_err (g : List String → Option String) {ids : List String} {m : String}
    (h : ids.length ≠ 0) (hg : g ids = some m) :
    ∃ m', (deleteSubmissions g ids).1 = Except.error m' := by
  refine ⟨"Failed to delete submissions " ++ String.intercalate ", " ids ++ ": " ++ m, ?_⟩
  unfold deleteSubmissions
  rw [if_neg h, hg]

theorem ds_pos_ok (g : List String → Option String) {ids : List String}
    (h : ids.length ≠ 0) (hg : g ids = none) :
    (deleteSubmissions g ids).1 = Except.ok ids.length := by
  unfold deleteSubmissions
  rw [if_neg h, hg]

end Cleanup

namespace Cleanup

theorem stepPage_cases (w : World) (st0 : RunState) (batch : List SubmissionRow) :
    ∃ pst res, filterNonPremium w.rpc st0.premium batch = (pst, res) ∧
      (stepPage w st0 batch).1.premium = pst ∧
      (stepPage w st0 batch).1.pages = st0.pages ++ [batch] ∧
      (stepPage w st0 batch).1.lastSeenId =
        (match batch.getLast? with
         | some row => some row.id
         | none => st0.lastSeenId) ∧
      ((∃ m, res = Except.error m ∧ (stepPage w st0 batch).2 = some m ∧
          (stepPage w st0 batch).1.r2Sends = st0.r2Sends ∧
          (stepPage w st0 batch).1.dbDeletes = st0.dbDeletes ∧
          (stepPage w st0 batch).1.totalRowsDeleted = st0.totalRowsDeleted ∧
          (stepPage w st0 batch).1.totalFilesDeleted = st0.totalFilesDeleted) ∨
       (∃ rem, res = Except.ok rem ∧ rem.length = 0 ∧ (stepPage w st0 batch).2 = none ∧
          (stepPage w st0 batch).1.r2Sends = st0.r2Sends ∧
          (stepPage w st0 batch).1.dbDeletes = st0.dbDeletes ∧
          (stepPage w st0 batch).1.totalRowsDeleted = st0.totalRowsDeleted ∧
          (stepPage w st0 batch).1.totalFilesDeleted = st0.totalFilesDeleted) ∨
       (∃ rem m sends, res = Except.ok rem ∧ rem.length ≠ 0 ∧
          deleteFilesFromR2 w.r2FailMsg (rowKeys rem) = (Except.error m, sends) ∧
          (stepPage w st0 batch).2 = some m ∧
          (stepPage w st0 batch).1.r2Sends = st0.r2Sends ++ sends ∧
          (stepPage w st0 batch).1.dbDeletes = st0.dbDeletes ∧
          (stepPage w st0 batch).1.totalRowsDeleted = st0.totalRowsDeleted ∧
          (stepPage w st0 batch).1.totalFilesDeleted = st0.totalFilesDeleted) ∨
       (∃ rem n sends m dels, res = Except.ok rem ∧ rem.length ≠ 0 ∧
          deleteFilesFromR2 w.r2FailMsg (rowKeys rem) = (Except.ok n, sends) ∧
          deleteSubmissions w.dbDeleteErr (rem.map (fun r => r.id)) = (Except.error m, dels) ∧
          (stepPage w st0 batch).2 = some m ∧
          (stepPage w st0 batch).1.r2Sends = st0.r2Sends ++ sends ∧
          (stepPage w st0 batch).1.dbDeletes = st0.dbDeletes ++ dels ∧
          (stepPage w st0 batch).1.totalRowsDeleted = st0.totalRowsDeleted ∧
          (stepPage w st0 batch).1.totalFilesDeleted = st0.totalFilesDeleted) ∨
       (∃ rem n sends k dels, res = Except.ok rem ∧ rem.length ≠ 0 ∧
          deleteFilesFromR2 w.r2FailMsg (rowKeys rem) = (Except.ok n, sends) ∧
          deleteSubmissions w.dbDeleteErr (rem.map (fun r => r.id)) = (Except.ok k, dels) ∧
          (stepPage w st0 batch).2 = none ∧
          (stepPage w st0 batch).1.r2Sends = st0.r2Sends ++ sends ∧
          (stepPage w st0 batch).1.dbDeletes = st0.dbDeletes ++ dels ∧
          (stepPage w st0 batch).1.totalRowsDeleted = st0.totalRowsDeleted + rem.length ∧
          (stepPage w st0 batch).1.totalFilesDeleted =
            st0.totalFilesDeleted + (rowKeys rem).length)) := by
  rcases hfnp : filterNonPremium w.rpc st0.premium batch with ⟨pst, res⟩
  cases res with
  | error m =>
    refine ⟨pst, Except.error m, rfl, ?_, ?_, ?_,
      Or.inl ⟨m, rfl, ?_, ?_, ?_, ?_, ?_⟩⟩ <;>
      simp [stepPage, hfnp]
  | ok rem =>
    by_cases hlen : rem.length = 0
    · refine ⟨pst, Except.ok rem, rfl, ?_, ?_, ?_,
        Or.inr (Or.inl ⟨rem, rfl, hlen, ?_, ?_, ?_, ?_, ?_⟩)⟩ <;>
        simp [stepPage, hfnp, hlen]
    · rcases hdfr : deleteFilesFromR2 w.r2FailMsg (rowKeys rem) with ⟨dres, sends⟩
      cases dres with
      | error m =>
        refine ⟨pst, Except.ok rem, rfl, ?_, ?_, ?_,
          Or.inr (Or.inr (Or.inl ⟨rem, m, sends, rfl, hlen, hdfr, ?_, ?_, ?_, ?_, ?_⟩))⟩ <;>
          simp [stepPage, hfnp, hlen, hdfr]
      | ok n =>
        rcases hds : deleteSubmissions w.dbDeleteErr (rem.map (fun r => r.id)) with ⟨dsres, dels⟩
        cases dsres with
        | error m =>
          refine ⟨pst, Except.ok rem, rfl, ?_, ?_, ?_,
            Or.inr (Or.inr (Or.inr (Or.inl
              ⟨rem, n, sends, m, dels, rfl, hlen, hdfr, hds, ?_, ?_, ?_, ?_, ?_⟩)))⟩ <;>
            simp [stepPage, hfnp, hlen, hdfr, hds]
        | ok kk =>
          refine ⟨pst, Except.ok rem, rfl, ?_, ?_, ?_,
            Or.inr (Or.inr (Or.inr (Or.inr
              ⟨rem, n, sends, kk, dels, rfl, hlen, hdfr, hds, ?_, ?_, ?_, ?_, ?_⟩)))⟩ <;>
            simp [stepPage, hfnp, hlen, hdfr, hds]

end Cleanup

namespace Cleanup

theorem stepPage_prem_weak (w : World) (st0 : RunState) (batch : List SubmissionRow)
    (hs : premStrong st0.premium) : premWeak (stepPage w st0 batch).1.premium := by
  obtain ⟨pst, res, hfnp, hprem, _, _, _⟩ := stepPage_cases w st0 batch
  rw [hprem]
  cases res with
  | error m => exact fnp_err_weak w.rpc hs hfnp
  | ok rem => exact premStrong_weak (fnp_ok_strong w.rpc hs hfnp)

theorem stepPage_prem_strong_of_ok (w : World) (st0 : RunState) (batch : List SubmissionRow)
    (hs : premStrong st0.premium) (h : (stepPage w st0 batch).2 = none) :
    premStrong (stepPage w st0 batch).1.premium := by
  obtain ⟨pst, res, hfnp, hprem, _, _, hbr⟩ := stepPage_cases w st0 batch
  rw [hprem]
  cases res with
  | error m =>
    rcases hbr with ⟨m', _, hsnd, _⟩ | ⟨rem, hok, _⟩ | ⟨rem, m', sends, hok, _⟩ |
      ⟨rem, n, sends, m', dels, hok, _⟩ | ⟨rem, n, sends, k, dels, hok, _⟩
    · rw [h] at hsnd; cases hsnd
    all_goals cases hok
  | ok rem => exact fnp_ok_strong w.rpc hs hfnp

theorem stepPage_cache_prefix (w : World) (st0 : RunState) (batch : List SubmissionRow) :
    st0.premium.cache <+: (stepPage w st0 batch).1.premium.cache := by
  obtain ⟨pst, res, hfnp, hprem, _, _, _⟩ := stepPage_cases w st0 batch
  rw [hprem]
  have := fnp_cache_prefix w.rpc st0.premium batch
  rw [hfnp] at this
  exact this

/-! ### Candidate-fetcher lemmas -/

theorem fetchBatch_subset (db : List SubmissionRow) (cutoffDate : String)
    (lastSeenId : Option String) : fetchBatch db cutoffDate lastSeenId ⊆ db := by
  intro r hr
  unfold fetchBatch at hr
  have h1 := List.take_subset _ _ hr
  have h2 := (List.perm_insertionSort leById _).mem_iff.mp h1
  cases lastSeenId with
  | none => exact List.mem_of_mem_filter h2
  | some cursor =>
    simp only at h2
    by_cases hc : truthy cursor = true
    · rw [if_pos hc] at h2
      exact List.mem_of_mem_filter (List.mem_of_mem_filter h2)
    · rw [if_neg hc] at h2
      exact List.mem_of_mem_filter h2

theorem fetchBatch_length (db : List SubmissionRow) (cutoffDate : String)
    (lastSeenId : Option String) : (fetchBatch db cutoffDate lastSeenId).length ≤ BATCH_SIZE :=
  List.length_take_le _ _

theorem fetchBatch_sorted (db : List SubmissionRow) (cutoffDate : String)
    (lastSeenId : Option String) : List.Sorted leById (fetchBatch db cutoffDate lastSeenId) :=
  List.Pairwise.sublist (List.take_sublist _ _) (List.sorted_insertionSort leById _)

theorem fetchBatch_date (db : List SubmissionRow) (cutoffDate : String)
    (lastSeenId : Option String) :
    ∀ r ∈ fetchBatch db cutoffDate lastSeenId, r.prompt_date.data < cutoffDate.data := by
  intro r hr
  unfold fetchBatch at hr
  have h1 := List.take_subset _ _ hr
  have h2 := (List.perm_insertionSort leById _).mem_iff.mp h1
  have h3 : r ∈ db.filter (fun r => decide (r.prompt_date.data < cutoffDate.data)) := by
    cases lastSeenId with
    | none => exact h2
    | some cursor =>
      simp only at h2
      by_cases hc : truthy cursor = true
      · rw [if_pos hc] at h2
        exact List.mem_of_mem_filter h2
      · rw [if_neg hc] at h2
        exact h2
  have := List.of_mem_filter h3
  simpa using this

theorem fetchBatch_gt_cursor (db : List SubmissionRow) (cutoffDate : String)
    {cursor : String} (hc : cursor ≠ "") :
    ∀ r ∈ fetchBatch db cutoffDate (some cursor), cursor.data < r.id.data := by
  intro r hr
  unfold fetchBatch at hr
  have h1 := List.take_subset _ _ hr
  have h2 := (List.perm_insertionSort leById _).mem_iff.mp h1
  have hct : truthy cursor = true := by simp [truthy, hc]
  simp only [hct, if_pos] at h2
  have := List.of_mem_filter h2
  simpa using this

theorem sorted_le_getLast {l : List SubmissionRow} {x : SubmissionRow}
    (hs : List.Sorted leById l) (hx : l.getLast? = some x) :
    ∀ a ∈ l, a.id.data ≤ x.id.data := by
  induction l with
  | nil => cases hx
  | cons y t ih =>
    intro a ha
    cases t with
    | nil =>
      simp at hx ha
      subst hx; subst ha
      exact le_refl _
    | cons z t' =>
      rw [List.getLast?_cons_cons] at hx
      rcases List.mem_cons.mp ha with rfl | ha'
      · have hxmem : x ∈ z :: t' := mem_of_getLastSome hx
        have := (List.sorted_cons.mp hs).1 x hxmem
        exact this
      · exact ih (List.sorted_cons.mp hs).2 hx a ha'

end Cleanup

namespace Cleanup

theorem runLoop_prem_weak (w : World) (cutoffDate : String) :
    ∀ (fuel : Nat) (st : RunState), premStrong st.premium →
      premWeak (runLoop w cutoffDate fuel st).1.premium := by
  intro fuel
  induction fuel with
  | zero => intro st hs; exact premStrong_weak hs
  | succ fuel ih =>
    intro st hs
    simp only [runLoop]
    by_cases hb : (fetchBatch w.db cutoffDate st.lastSeenId).length = 0
    · rw [if_pos hb]
      exact premStrong_weak hs
    · rw [if_neg hb]
      rcases hsp : stepPage w st (fetchBatch w.db cutoffDate st.lastSeenId) with ⟨st', res⟩
      cases res with
      | some msg =>
        have hw := stepPage_prem_weak w st (fetchBatch w.db cutoffDate st.lastSeenId) hs
        rw [hsp] at hw
        exact hw
      | none =>
        have hstrong := stepPage_prem_strong_of_ok w st
          (fetchBatch w.db cutoffDate st.lastSeenId) hs (by rw [hsp])
        rw [hsp] at hstrong
        exact ih st' hstrong

theorem runLoop_cache_prefix (w : World) (cutoffDate : String) :
    ∀ (fuel : Nat) (st : RunState),
      st.premium.cache <+: (runLoop w cutoffDate fuel st).1.premium.cache := by
  intro fuel
  induction fuel with
  | zero => intro st; exact List.prefix_refl _
  | succ fuel ih =>
    intro st
    simp only [runLoop]
    by_cases hb : (fetchBatch w.db cutoffDate st.lastSeenId).length = 0
    · rw [if_pos hb]
    · rw [if_neg hb]
      rcases hsp : stepPage w st (fetchBatch w.db cutoffDate st.lastSeenId) with ⟨st', res⟩
      have hpre : st.premium.cache <+: st'.premium.cache := by
        have := stepPage_cache_prefix w st (fetchBatch w.db cutoffDate st.lastSeenId)
        rw [hsp] at this
        exact this
      cases res with
      | some msg => exact hpre
      | none => exact hpre.trans (ih st')

theorem runLoop_fuel_mono (w : World) (cutoffDate : String) :
    ∀ (f₁ f₂ : Nat) (st : RunState), f₁ ≤ f₂ →
      (runLoop w cutoffDate f₁ st).1.premium.cache <+:
        (runLoop w cutoffDate f₂ st).1.premium.cache := by
  intro f₁
  induction f₁ with
  | zero => intro f₂ st _; exact runLoop_cache_prefix w cutoffDate f₂ st
  | succ f₁ ih =>
    intro f₂ st hle
    cases f₂ with
    | zero => exact absurd hle (by simp)
    | succ f₂ =>
      simp only [runLoop]
      by_cases hb : (fetchBatch w.db cutoffDate st.lastSeenId).length = 0
      · rw [if_pos hb, if_pos hb]
      · rw [if_neg hb, if_neg hb]
        rcases hsp : stepPage w st (fetchBatch w.db cutoffDate st.lastSeenId) with ⟨st', res⟩
        cases res with
        | some msg => exact List.prefix_refl _
        | none => exact ih f₂ st' (Nat.succ_le_succ_iff.mp hle)

end Cleanup

namespace Cleanup

theorem rowKeys_nil : rowKeys [] = [] := rfl

/-- C1: for every page, the relational row delete runs only after the
object-store batch delete for that page fully succeeded: whenever the R2
batch delete reports one or more per-key failures (some key of the page has a
failure entry), the page step throws (the run aborts) and the relational
delete for that page is never invoked — the relational-delete trace is left
exactly as it was, i.e. the page's relational delete count is zero. -/
theorem claim_C1_r2_failure_blocks_relational_delete (w : World) (st0 : RunState)
    (batch : List SubmissionRow) (pst : PremiumState) (rem : List SubmissionRow) (k : String)
    (hfnp : filterNonPremium w.rpc st0.premium batch = (pst, Except.ok rem))
    (hk : k ∈ rowKeys rem) (hfail : (w.r2FailMsg k).isSome = true) :
    (∃ m, (stepPage w st0 batch).2 = some m) ∧
      (stepPage w st0 batch).1.dbDeletes = st0.dbDeletes := by
  obtain ⟨pst', res, hfnp', _, _, _, hbr⟩ := stepPage_cases w st0 batch
  rw [hfnp] at hfnp'
  injection hfnp' with hp hr
  subst hp
  subst hr
  rcases hbr with ⟨m, hres, _⟩ | ⟨rem', hres, hlen, _⟩ |
    ⟨rem', m, sends, hres, hlen, hdfr, hsnd, _, hdb, _⟩ |
    ⟨rem', n, sends, m, dels, hres, hlen, hdfr, _⟩ |
    ⟨rem', n, sends, kk, dels, hres, hlen, hdfr, _⟩
  · cases hres
  · obtain rfl := Except.ok.inj hres
    rw [List.length_eq_zero] at hlen
    subst hlen
    rw [rowKeys_nil] at hk
    cases hk
  · obtain rfl := Except.ok.inj hres
    exact ⟨⟨m, hsnd⟩, hdb⟩
  · obtain rfl := Except.ok.inj hres
    obtain ⟨m', hm'⟩ := dfr_fail w.r2FailMsg hk hfail
    rw [hdfr] at hm'
    cases hm'
  · obtain rfl := Except.ok.inj hres
    obtain ⟨m', hm'⟩ := dfr_fail w.r2FailMsg hk hfail
    rw [hdfr] at hm'
    cases hm'

/-- C1 witness: in `wC1` the only key of the page fails in R2; the page step
throws and no relational delete is recorded. -/
theorem claim_C1_witness :
    (∃ m, (stepPage wC1 initState [rowC1]).2 = some m) ∧
      (stepPage wC1 initState [rowC1]).1.dbDeletes = initState.dbDeletes :=
  claim_C1_r2_failure_blocks_relational_delete wC1 initState [rowC1]
    ⟨[("u1", false)], ["u1"]⟩ [rowC1] "k1" rfl (by decide) (by decide)

/-- C8: a page on which entitlement filtering leaves zero deletable rows (all
owners exempt) is a no-op: the page step does not throw, no R2 command and no
relational delete call is recorded, and both run counters are unchanged (the
loop then proceeds to fetch the next page). -/
theorem claim_C8_all_exempt_page_noop (w : World) (st0 : RunState)
    (batch : List SubmissionRow) (pst : PremiumState)
    (hfnp : filterNonPremium w.rpc st0.premium batch = (pst, Except.ok [])) :
    (stepPage w st0 batch).2 = none ∧
    (stepPage w st0 batch).1.r2Sends = st0.r2Sends ∧
    (stepPage w st0 batch).1.dbDeletes = st0.dbDeletes ∧
    (stepPage w st0 batch).1.totalRowsDeleted = st0.totalRowsDeleted ∧
    (stepPage w st0 batch).1.totalFilesDeleted = st0.totalFilesDeleted := by
  obtain ⟨pst', res, hfnp', _, _, _, hbr⟩ := stepPage_cases w st0 batch
  rw [hfnp] at hfnp'
  injection hfnp' with hp hr
  subst hp
  subst hr
  rcases hbr with ⟨m, hres, _⟩ | ⟨rem', hres, hlen, hsnd, hr2, hdb, hrows, hfiles⟩ |
    ⟨rem', m, sends, hres, hlen, _⟩ | ⟨rem', n, sends, m, dels, hres, hlen, _⟩ |
    ⟨rem', n, sends, kk, dels, hres, hlen, _⟩
  · cases hres
  · exact ⟨hsnd, hr2, hdb, hrows, hfiles⟩
  all_goals
  · obtain rfl := Except.ok.inj hres
    simp at hlen

/-- C8 witness: in `wC8` the page's only owner is premium, so the page step
is a no-op. -/
theorem claim_C8_witness :
    (stepPage wC8 initState [rowC8]).2 = none ∧
    (stepPage wC8 initState [rowC8]).1.r2Sends = initState.r2Sends ∧
    (stepPage wC8 initState [rowC8]).1.dbDeletes = initState.dbDeletes ∧
    (stepPage wC8 initState [rowC8]).1.totalRowsDeleted = initState.totalRowsDeleted ∧
    (stepPage wC8 initState [rowC8]).1.totalFilesDeleted = initState.totalFilesDeleted :=
  claim_C8_all_exempt_page_noop wC8 initState [rowC8] ⟨[("u8", true)], ["u8"]⟩ rfl

/-- C4: if the entitlement RPC for some owner of the page yields a
non-boolean `data` or an error, and that owner is not already cached, then
the page step throws (the run aborts), the owner is never cached with any
default value, and no object-store and no relational delete call is recorded
for the page. -/
theorem claim_C4_fatal_entitlement_aborts_page (w : World) (st0 : RunState)
    (batch : List SubmissionRow) (uid : String)
    (hmem : uid ∈ batch.map (fun r => r.user_id))
    (hunc : cacheHas st0.premium.cache uid = false)
    (hfatal : fatalRpc (w.rpc uid)) :
    (∃ m, (stepPage w st0 batch).2 = some m) ∧
    cacheHas (stepPage w st0 batch).1.premium.cache uid = false ∧
    (stepPage w st0 batch).1.r2Sends = st0.r2Sends ∧
    (stepPage w st0 batch).1.dbDeletes = st0.dbDeletes := by
  obtain ⟨pst, res, hfnp, hprem, _, _, hbr⟩ := stepPage_cases w st0 batch
  have hmem1 : uid ∈ jsSetDedup (batch.map (fun r => r.user_id)) := mem_jsSetDedup.mpr hmem
  have hmem2 : uid ∈ (jsSetDedup (batch.map (fun r => r.user_id))).filter
      (fun userId => !(cacheHas st0.premium.cache userId)) :=
    List.mem_filter.mpr ⟨hmem1, by rw [hunc]; rfl⟩
  have hef := ensureGo_fatal w.rpc
    ((jsSetDedup (batch.map (fun r => r.user_id))).filter
      (fun userId => !(cacheHas st0.premium.cache userId)))
    st0.premium uid hmem2 hunc hfatal
  rcases fnp_cases w.rpc st0.premium batch with ⟨m, hens, hsnd⟩ | ⟨hens, hsnd⟩
  · rw [hfnp] at hens hsnd
    simp only at hsnd
    subst hsnd
    unfold ensurePremiumStatuses at hens
    rw [hens] at hef
    simp only at hef
    rcases hbr with ⟨m', hres, hsnd', hr2, hdb, _, _⟩ | ⟨rem', hres, _⟩ |
      ⟨rem', m', sends, hres, _⟩ | ⟨rem', n, sends, m', dels, hres, _⟩ |
      ⟨rem', n, sends, kk, dels, hres, _⟩
    · refine ⟨⟨m', hsnd'⟩, ?_, hr2, hdb⟩
      rw [hprem]
      exact hef.2
    all_goals cases hres
  · rw [hfnp] at hens
    unfold ensurePremiumStatuses at hens
    rw [hens] at hef
    simp at hef

/-- C4 witness: in `wC4` the only owner's RPC returns a non-boolean; the page
step throws, the owner stays uncached, and no delete call is recorded. -/
theorem claim_C4_witness :
    (∃ m, (stepPage wC4 initState [rowC4]).2 = some m) ∧
    cacheHas (stepPage wC4 initState [rowC4]).1.premium.cache "u4" = false ∧
    (stepPage wC4 initState [rowC4]).1.r2Sends = initState.r2Sends ∧
    (stepPage wC4 initState [rowC4]).1.dbDeletes = initState.dbDeletes :=
  claim_C4_fatal_entitlement_aborts_page wC4 initState [rowC4] "u4" (by decide) (by decide)
    (Or.inl (by decide))

end Cleanup

namespace Cleanup

/-- C2 counterexample: the claim "for every exempt row neither delete is ever
invoked with that row's object key or id" is false as stated.  In `wC2` the
exempt row `rowE` (owner `"pu"` resolved premium) has object key `"shared"`,
which a non-exempt row also carries, and the object-store batch delete is
invoked with exactly that key. -/
theorem claim_C2_counterexample :
    cacheGet (stepPage wC2 initState [rowE, rowN]).1.premium.cache "pu" = some true ∧
    rowE.user_id = "pu" ∧ rowE.original_key = some "shared" ∧
    (stepPage wC2 initState [rowE, rowN]).1.r2Sends = [["shared"]] := by decide

/-- C2 (amended): only rows whose owner resolved non-exempt contribute keys
and ids to the two delete calls: every row kept by the entitlement filter is
cached non-exempt, every key of the one R2 command of the page is the object
key of some non-exempt row, and the one relational delete call of the page
carries exactly the non-exempt rows' ids.  (An exempt row's key can therefore
still reach the object store when a non-exempt row carries the same key — the
counterexample — but never through the exempt row itself.) -/
theorem claim_C2_amended_only_nonexempt_contribute (w : World) (st0 : RunState)
    (batch : List SubmissionRow) (pst : PremiumState) (rem : List SubmissionRow)
    (hfnp : filterNonPremium w.rpc st0.premium batch = (pst, Except.ok rem)) :
    (∀ r ∈ rem, cacheGet pst.cache r.user_id = some false) ∧
    (∀ ks, (stepPage w st0 batch).1.r2Sends = st0.r2Sends ++ [ks] →
      ∀ k ∈ ks, ∃ r ∈ rem, r.original_key = some k) ∧
    (∀ ids, (stepPage w st0 batch).1.dbDeletes = st0.dbDeletes ++ [ids] →
      ids = rem.map (fun r => r.id)) := by
  refine ⟨fnp_ok_mem_false w.rpc hfnp, ?_, ?_⟩
  all_goals
    obtain ⟨pst', res, hfnp', _, _, _, hbr⟩ := stepPage_cases w st0 batch
  all_goals
    rw [hfnp] at hfnp'
  all_goals
    injection hfnp' with hp hr
  all_goals
    subst hp
  all_goals
    subst hr
  · intro ks hks k hkmem
    rcases hbr with ⟨m, hres, _⟩ | ⟨rem', hres, hlen, hsnd, hr2, _⟩ |
      ⟨rem', m, sends, hres, hlen, hdfr, hsnd, hr2, _⟩ |
      ⟨rem', n, sends, m, dels, hres, hlen, hdfr, hds, hsnd, hr2, _⟩ |
      ⟨rem', n, sends, kk, dels, hres, hlen, hdfr, hds, hsnd, hr2, _⟩
    · cases hres
    · obtain rfl := Except.ok.inj hres
      rw [hr2] at hks
      have := congrArg List.length hks
      simp at this
    · obtain rfl := Except.ok.inj hres
      have hkeys : (rowKeys rem).length ≠ 0 := by
        intro h0
        rw [dfr_zero w.r2FailMsg h0] at hdfr
        injection hdfr with h1 h2
        cases h1
      have hsends : sends = [jsSetDedup (rowKeys rem)] := by
        have := dfr_pos_sends w.r2FailMsg hkeys
        rw [hdfr] at this
        exact this
      subst hsends
      rw [hr2] at hks
      have hks' : ks = jsSetDedup (rowKeys rem) := by
        have := List.append_cancel_left hks
        exact (List.cons.inj this.symm).1
      subst hks'
      have hkm : k ∈ rowKeys rem := mem_jsSetDedup.mp hkmem
      exact (mem_rowKeys.mp hkm).1
    all_goals
      obtain rfl := Except.ok.inj hres
      have hkeys : (rowKeys rem).length ≠ 0 := by
        intro h0
        rw [dfr_zero w.r2FailMsg h0] at hdfr
        injection hdfr with h1 h2
        rw [← h2, List.append_nil] at hr2
        rw [hr2] at hks
        have := congrArg List.length hks
        simp at this
    all_goals
      have hsends : sends = [jsSetDedup (rowKeys rem)] := by
        have := dfr_pos_sends w.r2FailMsg hkeys
        rw [hdfr] at this
        exact this
      subst hsends
      rw [hr2] at hks
      have hks' : ks = jsSetDedup (rowKeys rem) := by
        have := List.append_cancel_left hks
        exact (List.cons.inj this.symm).1
      subst hks'
      have hkm : k ∈ rowKeys rem := mem_jsSetDedup.mp hkmem
      exact (mem_rowKeys.mp hkm).1
  · intro ids hids
    rcases hbr with ⟨m, hres, _⟩ | ⟨rem', hres, hlen, hsnd, hr2, hdb, _⟩ |
      ⟨rem', m, sends, hres, hlen, hdfr, hsnd, hr2, hdb, _⟩ |
      ⟨rem', n, sends, m, dels, hres, hlen, hdfr, hds, hsnd, hr2, hdb, _⟩ |
      ⟨rem', n, sends, kk, dels, hres, hlen, hdfr, hds, hsnd, hr2, hdb, _⟩
    · cases hres
    · obtain rfl := Except.ok.inj hres
      rw [hdb] at hids
      have := congrArg List.length hids
      simp at this
    · obtain rfl := Except.ok.inj hres
      rw [hdb] at hids
      have := congrArg List.length hids
      simp at this
    all_goals
      obtain rfl := Except.ok.inj hres
      have hlen' : (rem.map (fun r => r.id)).length ≠ 0 := by
        rw [List.length_map]
        exact hlen
      have hdels : dels = [rem.map (fun r => r.id)] := by
        have := ds_pos_calls w.dbDeleteErr hlen'
        rw [hds] at this
        exact this
      subst hdels
      rw [hdb] at hids
      have := List.append_cancel_left hids
      exact ((List.cons.inj this).1).symm

/-- C2 amended witness: on the `wC2` page the only key of the R2 command is
carried by a non-exempt row. -/
theorem claim_C2_amended_witness : ∃ r ∈ [rowN], r.original_key = some "shared" :=
  (claim_C2_amended_only_nonexempt_contribute wC2 initState [rowE, rowN]
      ⟨[("pu", true), ("nu", false)], ["pu", "nu"]⟩ [rowN] rfl).2.1
    ["shared"] (by decide) "shared" (by decide)

end Cleanup

namespace Cleanup

/-- C5 counterexample: the claim that the run counters receive "the count of
distinct objects actually removed" is false as stated.  In `wC5` the single
page holds two non-exempt rows sharing object key `"k"`: the object-store
delete is called with exactly 1 deduplicated key and the relational delete
with 2 ids (as the claim says), but the files counter is incremented by the
pre-deduplication key count 2, not by the 1 distinct object removed. -/
theorem claim_C5_counterexample :
    (runLoop wC5 "2001-01-01" 2 initState).1.r2Sends = [["k"]] ∧
    (runLoop wC5 "2001-01-01" 2 initState).1.dbDeletes = [["a", "b"]] ∧
    (runLoop wC5 "2001-01-01" 2 initState).2 = RunStatus.done ∧
    (runLoop wC5 "2001-01-01" 2 initState).1.totalRowsDeleted = 2 ∧
    (runLoop wC5 "2001-01-01" 2 initState).1.totalFilesDeleted = 2 ∧
    (jsSetDedup (rowKeys [rowA, rowB])).length = 1 := by decide

/-- C5 (amended): for every successfully processed page the deleter adds to
the counters the number of rows deleted and the number of truthy object keys
before deduplication (duplicates counted once per row), while the object
store receives the deduplicated key set and the relational delete the full id
list: rows counter `+= rem.length`, files counter `+= (rowKeys rem).length`,
one R2 command with `jsSetDedup (rowKeys rem)` (when any key exists), and one
relational call with `rem`'s ids. -/
theorem claim_C5_amended_counters_and_calls (w : World) (st0 : RunState)
    (batch : List SubmissionRow) (pst : PremiumState) (rem : List SubmissionRow)
    (hfnp : filterNonPremium w.rpc st0.premium batch = (pst, Except.ok rem))
    (hne : rem.length ≠ 0) (hok : (stepPage w st0 batch).2 = none) :
    (stepPage w st0 batch).1.totalRowsDeleted = st0.totalRowsDeleted + rem.length ∧
    (stepPage w st0 batch).1.totalFilesDeleted = st0.totalFilesDeleted + (rowKeys rem).length ∧
    ((rowKeys rem).length ≠ 0 →
      (stepPage w st0 batch).1.r2Sends = st0.r2Sends ++ [jsSetDedup (rowKeys rem)]) ∧
    (stepPage w st0 batch).1.dbDeletes = st0.dbDeletes ++ [rem.map (fun r => r.id)] := by
  obtain ⟨pst', res, hfnp', _, _, _, hbr⟩ := stepPage_cases w st0 batch
  rw [hfnp] at hfnp'
  injection hfnp' with hp hr
  subst hp
  subst hr
  rcases hbr with ⟨m, hres, _⟩ | ⟨rem', hres, hlen, _⟩ |
    ⟨rem', m, sends, hres, hlen, hdfr, hsnd, _⟩ |
    ⟨rem', n, sends, m, dels, hres, hlen, hdfr, hds, hsnd, _⟩ |
    ⟨rem', n, sends, kk, dels, hres, hlen, hdfr, hds, hsnd, hr2, hdb, hrows, hfiles⟩
  · cases hres
  · obtain rfl := Except.ok.inj hres
    exact absurd hlen hne
  · obtain rfl := Except.ok.inj hres
    rw [hok] at hsnd
    cases hsnd
  · obtain rfl := Except.ok.inj hres
    rw [hok] at hsnd
    cases hsnd
  · obtain rfl := Except.ok.inj hres
    refine ⟨hrows, hfiles, ?_, ?_⟩
    · intro hkeys
      have hsends : sends = [jsSetDedup (rowKeys rem)] := by
        have := dfr_pos_sends w.r2FailMsg hkeys
        rw [hdfr] at this
        exact this
      rw [hr2, hsends]
    · have hlen' : (rem.map (fun r => r.id)).length ≠ 0 := by
        rw [List.length_map]
        exact hne
      have hdels : dels = [rem.map (fun r => r.id)] := by
        have := ds_pos_calls w.dbDeleteErr hlen'
        rw [hds] at this
        exact this
      rw [hdb, hdels]

/-- C5 amended witness: the Scenario-B page of `wC5` (two rows, one shared
key) adds 2 to the rows counter and 2 to the files counter, sends one R2
command with the single deduplicated key, and one relational delete with both
ids. -/
theorem claim_C5_amended_witness :
    (stepPage wC5 initState [rowA, rowB]).1.totalRowsDeleted =
      initState.totalRowsDeleted + [rowA, rowB].length ∧
    (stepPage wC5 initState [rowA, rowB]).1.totalFilesDeleted =
      initState.totalFilesDeleted + (rowKeys [rowA, rowB]).length ∧
    (stepPage wC5 initState [rowA, rowB]).1.r2Sends =
      initState.r2Sends ++ [jsSetDedup (rowKeys [rowA, rowB])] ∧
    (stepPage wC5 initState [rowA, rowB]).1.dbDeletes =
      initState.dbDeletes ++ [[rowA, rowB].map (fun r => r.id)] := by
  have h := claim_C5_amended_counters_and_calls wC5 initState [rowA, rowB]
    ⟨[("u", false)], ["u"]⟩ [rowA, rowB] rfl (by decide) (by decide)
  exact ⟨h.1, h.2.1, h.2.2.1 (by decide), h.2.2.2⟩

end Cleanup

namespace Cleanup

theorem eraseEmptyKey_user_id (r : SubmissionRow) : (eraseEmptyKey r).user_id = r.user_id := by
  unfold eraseEmptyKey
  split <;> rfl

theorem eraseEmptyKey_id (r : SubmissionRow) : (eraseEmptyKey r).id = r.id := by
  unfold eraseEmptyKey
  split <;> rfl

theorem map_user_id_erase (rows : List SubmissionRow) :
    (rows.map eraseEmptyKey).map (fun r => r.user_id) = rows.map (fun r => r.user_id) := by
  rw [List.map_map]
  exact List.map_congr_left (fun r _ => eraseEmptyKey_user_id r)

theorem map_id_erase (rows : List SubmissionRow) :
    (rows.map eraseEmptyKey).map (fun r => r.id) = rows.map (fun r => r.id) := by
  rw [List.map_map]
  exact List.map_congr_left (fun r _ => eraseEmptyKey_id r)

theorem rowKeys_erase (rows : List SubmissionRow) :
    rowKeys (rows.map eraseEmptyKey) = rowKeys rows := by
  unfold rowKeys
  rw [List.map_map, List.filterMap_map, List.filterMap_map]
  apply List.filterMap_congr
  intro r _
  by_cases h : r.original_key = some ""
  · simp [Function.comp, eraseEmptyKey, h, truthy]
  · simp [Function.comp, eraseEmptyKey, h]

theorem fnp_erase (rpc : String → RpcOutcome) (pst : PremiumState)
    (batch : List SubmissionRow) {pst' : PremiumState} {res : Except String (List SubmissionRow)}
    (hfnp : filterNonPremium rpc pst batch = (pst', res)) :
    filterNonPremium rpc pst (batch.map eraseEmptyKey) =
      (pst',
        match res with
        | Except.error m => Except.error m
        | Except.ok rem => Except.ok (rem.map eraseEmptyKey)) := by
  have hids : jsSetDedup ((batch.map eraseEmptyKey).map (fun r => r.user_id)) =
      jsSetDedup (batch.map (fun r => r.user_id)) := by rw [map_user_id_erase]
  rcases he : ensurePremiumStatuses rpc pst (jsSetDedup (batch.map (fun r => r.user_id))) with
    ⟨est, eres⟩
  cases eres with
  | some m =>
    have h1 : filterNonPremium rpc pst batch = (est, Except.error m) := by
      simp [filterNonPremium, he]
    rw [hfnp] at h1
    injection h1 with hp hr
    subst hp
    subst hr
    simp only [filterNonPremium]
    rw [hids, he]
  | none =>
    have h1 : filterNonPremium rpc pst batch = (est, Except.ok (batch.filter
        (fun row => cacheGet est.cache row.user_id == some false))) := by
      simp [filterNonPremium, he]
    rw [hfnp] at h1
    injection h1 with hp hr
    subst hp
    subst hr
    have hfil : (batch.map eraseEmptyKey).filter
        (fun row => cacheGet pst'.cache row.user_id == some false) =
        (batch.filter (fun row => cacheGet pst'.cache row.user_id == some false)).map
          eraseEmptyKey := by
      rw [List.filter_map]
      congr 1
      apply List.filter_congr
      intro r _
      simp [Function.comp, eraseEmptyKey_user_id]
    simp only [filterNonPremium]
    rw [hids, he]
    dsimp only
    rw [hfil]

end Cleanup

namespace Cleanup

theorem map_id_erase_comp (rows : List SubmissionRow) :
    List.map ((fun r : SubmissionRow => r.id) ∘ eraseEmptyKey) rows =
      rows.map (fun r => r.id) :=
  List.map_congr_left (fun r _ => eraseEmptyKey_id r)

theorem map_user_id_erase_comp (rows : List SubmissionRow) :
    List.map ((fun r : SubmissionRow => r.user_id) ∘ eraseEmptyKey) rows =
      rows.map (fun r => r.user_id) :=
  List.map_congr_left (fun r _ => eraseEmptyKey_user_id r)

/-- C10: a non-exempt row whose `original_key` is the empty string is treated
exactly like a row with an absent key.  Replacing every `some ""` key in a
page by `none` (`eraseEmptyKey`) changes nothing observable about the page
step — same thrown error, same R2 commands, same relational delete calls,
same counters (so the `""` key is excluded from both the batch delete and the
files counter while the row is still deleted and counted), same cache and
same cursor — and the empty string never occurs among a page's collected
keys. -/
theorem claim_C10_empty_key_like_absent (w : World) (st0 : RunState)
    (batch : List SubmissionRow) :
    (∀ rows : List SubmissionRow, "" ∉ rowKeys rows) ∧
    (stepPage w st0 (batch.map eraseEmptyKey)).2 = (stepPage w st0 batch).2 ∧
    (stepPage w st0 (batch.map eraseEmptyKey)).1.r2Sends =
      (stepPage w st0 batch).1.r2Sends ∧
    (stepPage w st0 (batch.map eraseEmptyKey)).1.dbDeletes =
      (stepPage w st0 batch).1.dbDeletes ∧
    (stepPage w st0 (batch.map eraseEmptyKey)).1.totalRowsDeleted =
      (stepPage w st0 batch).1.totalRowsDeleted ∧
    (stepPage w st0 (batch.map eraseEmptyKey)).1.totalFilesDeleted =
      (stepPage w st0 batch).1.totalFilesDeleted ∧
    (stepPage w st0 (batch.map eraseEmptyKey)).1.premium =
      (stepPage w st0 batch).1.premium ∧
    (stepPage w st0 (batch.map eraseEmptyKey)).1.lastSeenId =
      (stepPage w st0 batch).1.lastSeenId := by
  refine ⟨fun rows => empty_not_mem_rowKeys rows, ?_⟩
  rcases hfnp : filterNonPremium w.rpc st0.premium batch with ⟨pst, res⟩
  have hfnp' := fnp_erase w.rpc st0.premium batch hfnp
  cases res with
  | error m =>
    refine ⟨?_, ?_, ?_, ?_, ?_, ?_, ?_⟩ <;>
      cases hgl : batch.getLast? <;>
        simp [stepPage, hfnp, hfnp', List.getLast?_map, hgl, eraseEmptyKey_id]
  | ok rem =>
    by_cases hlen : rem.length = 0
    · refine ⟨?_, ?_, ?_, ?_, ?_, ?_, ?_⟩ <;>
        cases hgl : batch.getLast? <;>
          simp [stepPage, hfnp, hfnp', hlen, List.length_map, List.getLast?_map, hgl,
            eraseEmptyKey_id, rowKeys_erase, map_id_erase, map_id_erase_comp,
            map_user_id_erase_comp]
    · rcases hdfr : deleteFilesFromR2 w.r2FailMsg (rowKeys rem) with ⟨dres, sends⟩
      cases dres with
      | error m2 =>
        refine ⟨?_, ?_, ?_, ?_, ?_, ?_, ?_⟩ <;>
          cases hgl : batch.getLast? <;>
            simp [stepPage, hfnp, hfnp', hlen, List.length_map, List.getLast?_map, hgl,
              eraseEmptyKey_id, rowKeys_erase, map_id_erase, map_id_erase_comp,
              map_user_id_erase_comp, hdfr]
      | ok n =>
        rcases hds : deleteSubmissions w.dbDeleteErr (rem.map (fun r => r.id)) with ⟨dsres, dels⟩
        cases dsres <;>
          (refine ⟨?_, ?_, ?_, ?_, ?_, ?_, ?_⟩ <;>
            cases hgl : batch.getLast? <;>
              simp [stepPage, hfnp, hfnp', hlen, List.length_map, List.getLast?_map, hgl,
                eraseEmptyKey_id, rowKeys_erase, map_id_erase, map_id_erase_comp,
                map_user_id_erase_comp, hdfr, hds])

end Cleanup

namespace Cleanup

/-- C10 witness: on the concrete `wC10` page the empty-string key never
appears among the collected keys, erasing it changes no relational call, and
concretely the R2 command carries only the real key `"k10"` while the
relational delete still carries both ids, including the empty-key row's. -/
theorem claim_C10_witness :
    "" ∉ rowKeys [rowK10, rowL10] ∧
    (stepPage wC10 initState ([rowK10, rowL10].map eraseEmptyKey)).1.dbDeletes =
      (stepPage wC10 initState [rowK10, rowL10]).1.dbDeletes ∧
    (stepPage wC10 initState [rowK10, rowL10]).1.r2Sends = [["k10"]] ∧
    (stepPage wC10 initState [rowK10, rowL10]).1.dbDeletes = [["s10", "t10"]] :=
  ⟨(claim_C10_empty_key_like_absent wC10 initState [rowK10, rowL10]).1 [rowK10, rowL10],
   (claim_C10_empty_key_like_absent wC10 initState [rowK10, rowL10]).2.2.2.1,
   by decide, by decide⟩

end Cleanup

namespace Cleanup

/-- C6 counterexample: the clause "when the cursor is non-null, only
submissions whose id is strictly greater than the cursor" is false as stated.
With the non-null cursor `""` (the one falsy string, so `if (lastSeenId)` in
`fetchBatch` skips the `.gt` restriction) the row with id `""` is returned,
and its id is not strictly greater than the cursor. -/
theorem claim_C6_counterexample :
    row6 ∈ fetchBatch [row6] "2001-01-01" (some "") ∧
      ¬(("" : String).data < row6.id.data) := by decide

/-- C6 (amended): every `fetchBatch` call returns at most `BATCH_SIZE = 1000`
submissions, ordered ascending by id, all of whose prompt dates are strictly
earlier than the cutoff date; and when the cursor is non-null and non-empty
(the code treats the falsy `""` cursor like null), every returned id is
strictly greater than the cursor. -/
theorem claim_C6_amended_fetch_contract (db : List SubmissionRow) (cutoffDate : String)
    (lastSeenId : Option String) :
    (fetchBatch db cutoffDate lastSeenId).length ≤ BATCH_SIZE ∧
    List.Sorted leById (fetchBatch db cutoffDate lastSeenId) ∧
    (∀ r ∈ fetchBatch db cutoffDate lastSeenId, r.prompt_date.data < cutoffDate.data) ∧
    (∀ cursor, lastSeenId = some cursor → cursor ≠ "" →
      ∀ r ∈ fetchBatch db cutoffDate lastSeenId, cursor.data < r.id.data) :=
  ⟨fetchBatch_length db cutoffDate lastSeenId, fetchBatch_sorted db cutoffDate lastSeenId,
   fetchBatch_date db cutoffDate lastSeenId,
   fun cursor hc hne => by
     subst hc
     exact fetchBatch_gt_cursor db cutoffDate hne⟩

/-- C6 amended witness: with the truthy cursor `"a"` the fetched page of
`[rowA, rowB]` respects the size bound and returns `rowB` with id above the
cursor. -/
theorem claim_C6_witness :
    (fetchBatch [rowA, rowB] "2001-01-01" (some "a")).length ≤ BATCH_SIZE ∧
    ("a" : String).data < rowB.id.data :=
  ⟨(claim_C6_amended_fetch_contract [rowA, rowB] "2001-01-01" (some "a")).1,
   (claim_C6_amended_fetch_contract [rowA, rowB] "2001-01-01" (some "a")).2.2.2 "a" rfl
     (by decide) rowB (by decide)⟩

theorem invoke_warned_stays (rpc : PremiumArg → String → RpcReply) (userId : String) :
    (invokeUserIsPremium rpc true userId).warned = true ∧
    (invokeUserIsPremium rpc true userId).warnings = 0 := by
  constructor <;>
    (unfold invokeUserIsPremium
     dsimp only
     split <;> rfl)

theorem runWarnings_of_warned (rpc : PremiumArg → String → RpcReply) :
    ∀ l : List String, runWarnings rpc l true = 0 := by
  intro l
  induction l with
  | nil => rfl
  | cons uid rest ih =>
    simp only [runWarnings]
    rw [(invoke_warned_stays rpc uid).1, (invoke_warned_stays rpc uid).2, ih]

/-- C9: when the canonical `user_is_premium(user_id)` call fails specifically
because the argument name is unrecognized (`isMissingUserIdArgument` matches
the failure message against the function name and the identifier), the
resolver retries exactly once with the legacy `uid` parameter name and
returns that second reply; any other outcome of the canonical call (success
or any other failure) is returned as is with no retry; and over any sequence
of invocations in one run, at most one warning is printed. -/
theorem claim_C9_legacy_parameter_retry (rpc : PremiumArg → String → RpcReply)
    (warned : Bool) (userId : String) :
    (isMissingUserIdArgument (replyError (rpc PremiumArg.user_id userId)) = true →
      (invokeUserIsPremium rpc warned userId).calls = [PremiumArg.user_id, PremiumArg.uid] ∧
      (invokeUserIsPremium rpc warned userId).reply = rpc PremiumArg.uid userId) ∧
    (isMissingUserIdArgument (replyError (rpc PremiumArg.user_id userId)) = false →
      (invokeUserIsPremium rpc warned userId).calls = [PremiumArg.user_id] ∧
      (invokeUserIsPremium rpc warned userId).reply = rpc PremiumArg.user_id userId) ∧
    (∀ userIds : List String, runWarnings rpc userIds false ≤ 1) := by
  refine ⟨?_, ?_, ?_⟩
  · intro h
    constructor <;> simp [invokeUserIsPremium, h]
  · intro h
    constructor <;> simp [invokeUserIsPremium, h]
  · intro userIds
    induction userIds with
    | nil => simp [runWarnings]
    | cons uid rest ih =>
      simp only [runWarnings]
      by_cases h : isMissingUserIdArgument (replyError (rpc PremiumArg.user_id uid)) = true
      · have hw : (invokeUserIsPremium rpc false uid).warned = true := by
          simp [invokeUserIsPremium, h]
        have hn : (invokeUserIsPremium rpc false uid).warnings = 1 := by
          simp [invokeUserIsPremium, h]
        rw [hw, hn, runWarnings_of_warned rpc rest]
      · rw [Bool.not_eq_true] at h
        have hw : (invokeUserIsPremium rpc false uid).warned = false := by
          simp [invokeUserIsPremium, h]
        have hn : (invokeUserIsPremium rpc false uid).warnings = 0 := by
          simp [invokeUserIsPremium, h]
        rw [hw, hn]
        simpa using ih

/-- C9 witness: with `rpc9` the canonical call fails with the legacy-schema
message, so exactly the two argument names are tried and the legacy reply is
returned; with `rpc9b` the unrelated failure is not retried; warnings over a
two-invocation run stay at most one. -/
theorem claim_C9_witness :
    (invokeUserIsPremium rpc9 false "u9").calls = [PremiumArg.user_id, PremiumArg.uid] ∧
    (invokeUserIsPremium rpc9 false "u9").reply = RpcReply.ok true ∧
    (invokeUserIsPremium rpc9b false "u9").calls = [PremiumArg.user_id] ∧
    runWarnings rpc9 ["u9a", "u9b"] false ≤ 1 :=
  ⟨((claim_C9_legacy_parameter_retry rpc9 false "u9").1 (by decide)).1,
   ((claim_C9_legacy_parameter_retry rpc9 false "u9").1 (by decide)).2.trans rfl,
   ((claim_C9_legacy_parameter_retry rpc9b false "u9").2.1 (by decide)).1,
   (claim_C9_legacy_parameter_retry rpc9 false "u9").2.2 ["u9a", "u9b"]⟩

/-- C3: entitlement lookups are cached and idempotent for one whole run: the
issued RPC user ids are pairwise distinct, every owner that ends up resolved
in the cache was looked up exactly once, cutting the run short at any earlier
iteration yields a cache that is a prefix of the longer run's cache (the
cache only grows and is never invalidated), and a `fetchPremiumStatus` query
of an already-cached owner issues nothing and returns the cached boolean. -/
theorem claim_C3_cache_idempotent (w : World) (cutoffDate : String) (fuel : Nat) :
    (runLoop w cutoffDate fuel initState).1.premium.rpcCalls.Nodup ∧
    (∀ uid b, cacheGet (runLoop w cutoffDate fuel initState).1.premium.cache uid = some b →
      List.count uid (runLoop w cutoffDate fuel initState).1.premium.rpcCalls = 1) ∧
    (∀ f, f ≤ fuel →
      (runLoop w cutoffDate f initState).1.premium.cache <+:
        (runLoop w cutoffDate fuel initState).1.premium.cache) ∧
    (∀ pst uid b, cacheGet pst.cache uid = some b →
      fetchPremiumStatus w.rpc pst uid = (pst, Except.ok b)) := by
  obtain ⟨hnd, hmem⟩ := runLoop_prem_weak w cutoffDate fuel initState initPremium_strong
  refine ⟨hnd, ?_, ?_, ?_⟩
  · intro uid b hc
    have hhas : cacheHas (runLoop w cutoffDate fuel initState).1.premium.cache uid = true := by
      rw [cacheHas, hc]
      rfl
    exact List.count_eq_one_of_mem hnd (hmem uid hhas)
  · intro f hf
    exact runLoop_fuel_mono w cutoffDate f fuel initState hf
  · intro pst uid b hc
    exact fps_cached w.rpc hc

/-- C3 witness: in `wC3` the one owner `"u3"` queried in the run is looked up
exactly once, the fuel-1 cache is a prefix of the fuel-2 cache, and a second
query of the cached owner returns the cached result with no state change. -/
theorem claim_C3_witness :
    List.count "u3" (runLoop wC3 "2001-01-01" 2 initState).1.premium.rpcCalls = 1 ∧
    (runLoop wC3 "2001-01-01" 1 initState).1.premium.cache <+:
      (runLoop wC3 "2001-01-01" 2 initState).1.premium.cache ∧
    fetchPremiumStatus wC3.rpc ⟨[("u3", false)], ["u3"]⟩ "u3" =
      (⟨[("u3", false)], ["u3"]⟩, Except.ok false) :=
  ⟨(claim_C3_cache_idempotent wC3 "2001-01-01" 2).2.1 "u3" false (by decide),
   (claim_C3_cache_idempotent wC3 "2001-01-01" 2).2.2.1 1 (by decide),
   (claim_C3_cache_idempotent wC3 "2001-01-01" 2).2.2.2 ⟨[("u3", false)], ["u3"]⟩ "u3" false
     (by decide)⟩

end Cleanup

namespace Cleanup

theorem initState_runInv : runInv initState := by
  refine ⟨List.Pairwise.nil, ?_, ?_, ?_, ?_⟩
  · intro p hp
    simp [initState] at hp
  · intro p hp
    simp [initState] at hp
  · intro _
    rfl
  · intro c hc
    simp [initState] at hc

theorem stepPage_runInv (w : World) (cutoffDate : String)
    (hdb : ∀ r ∈ w.db, r.id ≠ "") (st : RunState) (hinv : runInv st)
    (hb : (fetchBatch w.db cutoffDate st.lastSeenId).length ≠ 0) :
    runInv (stepPage w st (fetchBatch w.db cutoffDate st.lastSeenId)).1 := by
  obtain ⟨hpw, hne, hcur, hnilcur, hbound⟩ := hinv
  have hbne : fetchBatch w.db cutoffDate st.lastSeenId ≠ [] := by
    intro h0
    rw [h0] at hb
    exact hb rfl
  obtain ⟨lastRow, hgl⟩ : ∃ r, (fetchBatch w.db cutoffDate st.lastSeenId).getLast? = some r :=
    ⟨_, List.getLast?_eq_getLast_of_ne_nil hbne⟩
  have hlastmem : lastRow ∈ fetchBatch w.db cutoffDate st.lastSeenId := mem_of_getLastSome hgl
  have hbatch_le : ∀ a ∈ fetchBatch w.db cutoffDate st.lastSeenId,
      a.id.data ≤ lastRow.id.data :=
    sorted_le_getLast (fetchBatch_sorted w.db cutoffDate st.lastSeenId) hgl
  have hbatch_gt : ∀ c, st.lastSeenId = some c →
      ∀ a ∈ fetchBatch w.db cutoffDate st.lastSeenId, c.data < a.id.data := by
    intro c hc a ha
    have hcne : c ≠ "" := ((hbound c hc).1)
    rw [hc] at ha
    exact fetchBatch_gt_cursor w.db cutoffDate hcne a ha
  have hpages_nil : st.lastSeenId = none → st.pages = [] := by
    intro hnone
    by_contra hpne
    obtain ⟨p, hp⟩ := Option.isSome_iff_exists.mp
      (by rw [List.getLast?_isSome]; exact hpne)
    obtain ⟨r, _, hcur'⟩ := hcur p hp
    rw [hnone] at hcur'
    cases hcur'
  obtain ⟨pst, res, _, _, hpages, hlast, _⟩ :=
    stepPage_cases w st (fetchBatch w.db cutoffDate st.lastSeenId)
  simp only [hgl] at hlast
  have hcross : ∀ p ∈ st.pages, pagesLt p (fetchBatch w.db cutoffDate st.lastSeenId) := by
    intro p hp a ha b hbmem
    cases hc : st.lastSeenId with
    | none =>
      rw [hpages_nil hc] at hp
      cases hp
    | some c =>
      exact lt_of_le_of_lt ((hbound c hc).2 p hp a ha) (hbatch_gt c hc b hbmem)
  refine ⟨?_, ?_, ?_, ?_, ?_⟩
  · rw [hpages]
    rw [List.pairwise_append]
    exact ⟨hpw, List.pairwise_singleton _ _, fun p hp b hb' => by
      have hb1 : b = fetchBatch w.db cutoffDate st.lastSeenId := List.mem_singleton.mp hb'
      subst hb1
      exact hcross p hp⟩
  · intro p hp
    rw [hpages] at hp
    rcases List.mem_append.mp hp with h | h
    · exact hne p h
    · rw [List.mem_singleton.mp h]
      exact hbne
  · intro p hp
    rw [hpages, List.getLast?_concat] at hp
    obtain rfl := Option.some.inj hp
    exact ⟨_, hgl, hlast⟩
  · intro hp
    rw [hpages] at hp
    exact absurd hp (by simp)
  · intro c hc
    rw [hlast] at hc
    obtain rfl := Option.some.inj hc
    constructor
    · exact hdb _ (fetchBatch_subset w.db cutoffDate st.lastSeenId hlastmem)
    · intro p hp a ha
      rw [hpages] at hp
      rcases List.mem_append.mp hp with h | h
      · cases hcs : st.lastSeenId with
        | none =>
          rw [hpages_nil hcs] at h
          cases h
        | some c' =>
          exact le_trans ((hbound c' hcs).2 p h a ha)
            (le_of_lt (hbatch_gt c' hcs _ hlastmem))
      · rw [List.mem_singleton.mp h] at ha
        exact hbatch_le a ha

theorem runLoop_runInv (w : World) (cutoffDate : String)
    (hdb : ∀ r ∈ w.db, r.id ≠ "") :
    ∀ (fuel : Nat) (st : RunState), runInv st →
      runInv (runLoop w cutoffDate fuel st).1 := by
  intro fuel
  induction fuel with
  | zero => intro st hinv; exact hinv
  | succ fuel ih =>
    intro st hinv
    simp only [runLoop]
    by_cases hb : (fetchBatch w.db cutoffDate st.lastSeenId).length = 0
    · rw [if_pos hb]
      exact hinv
    · rw [if_neg hb]
      have hstep := stepPage_runInv w cutoffDate hdb st hinv hb
      rcases hsp : stepPage w st (fetchBatch w.db cutoffDate st.lastSeenId) with ⟨st', res⟩
      rw [hsp] at hstep
      cases res with
      | some msg => exact hstep
      | none => exact ih st' hstep

end Cleanup

namespace Cleanup

/-- C7 counterexample: the pagination claim is false as stated when a row id
is the empty string (the one falsy string).  In `wC7` the only eligible row
has id `""`; after the first page the cursor is `""`, which `if (lastSeenId)`
treats like null, so the second fetch returns the very same row: the row id
appears in two distinct pages and the cursor does not strictly increase. -/
theorem claim_C7_counterexample :
    (runLoop wC7 "2001-01-01" 2 initState).1.pages = [[row7], [row7]] ∧
    (runLoop wC7 "2001-01-01" 2 initState).1.lastSeenId = some "" ∧
    row7.id = "" := by decide

/-- C7 (amended): provided every row id in the store is non-empty (truthy),
the cursor only moves forward: the recorded pages are strictly ordered by id
(every id of an earlier page is strictly below every id of a later page, so
no row id ever occurs in two distinct pages), every recorded page is
non-empty, after the last non-empty page the cursor equals that page's last
row id, and the per-page cursor values (each page's last row id) are strictly
increasing across the run. -/
theorem claim_C7_amended_cursor_monotone (w : World) (cutoffDate : String) (fuel : Nat)
    (hdb : ∀ r ∈ w.db, r.id ≠ "") :
    List.Pairwise pagesLt (runLoop w cutoffDate fuel initState).1.pages ∧
    (∀ p ∈ (runLoop w cutoffDate fuel initState).1.pages, p ≠ []) ∧
    (∀ p, (runLoop w cutoffDate fuel initState).1.pages.getLast? = some p →
      ∃ r, p.getLast? = some r ∧
        (runLoop w cutoffDate fuel initState).1.lastSeenId = some r.id) ∧
    List.Pairwise (fun a b : String => a.data < b.data)
      ((runLoop w cutoffDate fuel initState).1.pages.map pageLastId) := by
  obtain ⟨hpw, hne, hcur, _, _⟩ := runLoop_runInv w cutoffDate hdb fuel initState initState_runInv
  refine ⟨hpw, hne, hcur, ?_⟩
  rw [List.pairwise_map]
  refine List.Pairwise.imp_of_mem ?_ hpw
  intro p q hp hq hlt
  have hpne := hne p hp
  have hqne := hne q hq
  obtain ⟨rp, hrp⟩ : ∃ r, p.getLast? = some r := ⟨_, List.getLast?_eq_getLast_of_ne_nil hpne⟩
  obtain ⟨rq, hrq⟩ : ∃ r, q.getLast? = some r := ⟨_, List.getLast?_eq_getLast_of_ne_nil hqne⟩
  have hp1 : pageLastId p = rp.id := by unfold pageLastId; rw [hrp]
  have hq1 : pageLastId q = rq.id := by unfold pageLastId; rw [hrq]
  rw [hp1, hq1]
  exact hlt rp (mem_of_getLastSome hrp) rq (mem_of_getLastSome hrq)

/-- C7 amended witness: with the truthy-id store `wC7b` the run's single
recorded page is strictly ordered and the final cursor is its last row id. -/
theorem claim_C7_witness :
    List.Pairwise pagesLt (runLoop wC7b "2001-01-01" 2 initState).1.pages ∧
    (∃ r, ([rowA7, rowB7] : List SubmissionRow).getLast? = some r ∧
      (runLoop wC7b "2001-01-01" 2 initState).1.lastSeenId = some r.id) :=
  ⟨(claim_C7_amended_cursor_monotone wC7b "2001-01-01" 2 (by decide)).1,
   (claim_C7_amended_cursor_monotone wC7b "2001-01-01" 2 (by decide)).2.2.1 [rowA7, rowB7]
     (by decide)⟩

end Cleanup
